import Mathlib

/-!
Verification of the firmware bundling and deployment logic in
`host/lib/bundle_firmware.py` and `host/lib/write_firmware.py`.

Byte strings (Python 2 `str` values holding binary data) are modelled as
`List Nat`, one entry per byte (the value `ord(ch)` of each character).
Fatal exceptions (`CmdError`, `ValueError`, `struct.error`, …) are modelled
with `Except Err`, one `Err` constructor per raise site.  External
collaborators (the fdt accessors, `tools.ReadFile`/`WriteFile`, external
commands) are modelled as explicit inputs / oracles of the functions that
call them; file writes are dropped and the written data is returned instead.
-/

/-- Error values for the exceptions the modelled code can raise. -/
inductive Err where
  /-- `struct.error`: `struct.unpack`/`struct.pack` on data of the wrong
      length or a value out of range. -/
  | structError : Err
  /-- `CmdError("Could not find machine parameter block in ...")`. -/
  | notFound : Err
  /-- `CmdError("Cannot update machine parameter block version '%d'")`. -/
  | badVersion (version : Nat) : Err
  /-- `CmdError("Machine parameter block size %d is invalid ...")`. -/
  | badSize (size : Nat) : Err
  /-- `CmdError("Unknown memory type '%s'")`. -/
  | unknownMemType (s : String) : Err
  /-- `CmdError("Unknown memory manufacturer: '%s'")`. -/
  | unknownMemManuf (s : String) : Err
  /-- `CmdError("Invalid boot source '%s'")`. -/
  | invalidBootSource (s : String) : Err
  /-- `ValueError("Internal error: replacement string '%s' length does not
      match new string '%s'")` in `PrepareFlasher`. -/
  | lengthMismatch : Err
  /-- `ValueError("Internal error: replacement string '%s' already exists
      in the fdt (%d matches)")` in `PrepareFlasher`. -/
  | matchCount (n : Nat) : Err
deriving DecidableEq, Repr

/-! ### Python byte-string primitives -/

/-- Clamp one bound of a Python slice `data[a:b]` to `[0, len]`:
a negative index counts from the end of the sequence. -/
def pyBound (len : Nat) (i : Int) : Nat :=
  if i < 0 then ((len : Int) + i).toNat else min i.toNat len

/-- Python slice `data[a:b]`. -/
def pySlice (data : List Nat) (a b : Int) : List Nat :=
  (data.take (pyBound data.length b)).drop (pyBound data.length a)

/-- Python slice `data[a:]`. -/
def pyDrop (data : List Nat) (a : Int) : List Nat :=
  pySlice data a data.length

/-- Python slice `data[:b]`. -/
def pyTake (data : List Nat) (b : Int) : List Nat :=
  pySlice data 0 b

/-- `struct.unpack('<L', w)[0]` on a 4-byte string (little endian). -/
def le32dec (w : List Nat) : Nat :=
  match w with
  | [a, b, c, d] => a + 256 * b + 65536 * c + 16777216 * d
  | _ => 0

/-- `struct.pack('<L', v)` for `v < 2^32` (little endian). -/
def le32enc (v : Nat) : List Nat :=
  [v % 256, v / 256 % 256, v / 65536 % 256, v / 16777216 % 256]

/-- `struct.unpack('<L', w)[0]`, raising `struct.error` unless `w` has
exactly 4 bytes. -/
def unpack32 (w : List Nat) : Except Err Nat :=
  if w.length = 4 then .ok (le32dec w) else .error .structError

/-- `struct.pack('<L', v)`, raising `struct.error` when the value does not
fit an unsigned 32-bit field. -/
def pack32 (v : Nat) : Except Err (List Nat) :=
  if v < 4294967296 then .ok (le32enc v) else .error .structError

/-- Python `x & ~(boundary - 1)` for a power-of-two `boundary` and a
non-negative `x`: clearing the low bits subtracts the remainder. -/
def maskAlign (x boundary : Nat) : Nat := x - x % boundary

/-- `write_firmware.RoundUp`: `(value + boundary - 1) & ~(boundary - 1)`,
aligning `value` up to the next multiple of the power-of-two `boundary`. -/
def RoundUp (value boundary : Nat) : Nat :=
  maskAlign (value + boundary - 1) boundary

/-- The sum a Python loop `for ch in data: checksum += ord(ch)` computes. -/
def byteSum (data : List Nat) : Nat := data.foldl (· + ·) 0

/-- `str.find(sub)` for a single byte `v`: index of the first occurrence,
`-1` when there is none. -/
def listFind (v : Nat) : List Nat → Int
  | [] => -1
  | x :: xs =>
      if x = v then 0
      else
        let r := listFind v xs
        if r = -1 then -1 else r + 1

/-- `str.rfind(pattern)`: the largest start index at which `pattern` occurs
as a contiguous substring, `-1` when it does not occur. -/
def listRfind (pattern data : List Nat) : Int :=
  match ((List.range (data.length + 1)).filter
      (fun i => pattern.isPrefixOf (data.drop i))).getLast? with
  | some i => (i : Int)
  | none => -1

/-- `pattern in data` (Python substring containment). -/
def listContains (pattern : List Nat) : List Nat → Bool
  | [] => pattern.isEmpty
  | c :: rest => pattern.isPrefixOf (c :: rest) || listContains pattern rest

/-- One fuel step of `re.findall(pattern, s)` match counting for a literal,
non-empty pattern: scan left to right, matches do not overlap.  The fuel is
always at least `s.length`, so the fuel-exhausted branch is never taken at
the wrapper's call site. -/
def countMatchesAux (pattern : List Nat) : Nat → List Nat → Nat
  | 0, _ => 0
  | _ + 1, [] => 0
  | fuel + 1, c :: rest =>
      if pattern.isPrefixOf (c :: rest) then
        1 + countMatchesAux pattern fuel ((c :: rest).drop pattern.length)
      else countMatchesAux pattern fuel rest

/-- `len(re.findall(pattern, s))` for a literal, non-empty pattern. -/
def countMatches (pattern s : List Nat) : Nat :=
  countMatchesAux pattern s.length s

/-- Fuel-driven `re.sub(pattern, repl, s)` for a literal, non-empty
pattern; when fuel runs out the remaining bytes are kept unchanged (the
wrapper supplies enough fuel for the whole string). -/
def replaceAllAux (pattern repl : List Nat) : Nat → List Nat → List Nat
  | 0, s => s
  | _ + 1, [] => []
  | fuel + 1, c :: rest =>
      if pattern.isPrefixOf (c :: rest) then
        repl ++ replaceAllAux pattern repl fuel ((c :: rest).drop pattern.length)
      else c :: replaceAllAux pattern repl fuel rest

/-- `re.sub(pattern, repl, s)` for a literal, non-empty pattern. -/
def replaceAll (pattern repl s : List Nat) : List Nat :=
  replaceAllAux pattern repl s.length s

/-- Hex digit characters used by Python `'%x'` (lowercase). -/
def hexDigitCode (d : Nat) : Nat := if d < 10 then 48 + d else 87 + d

/-- Fuel-driven base-16 digit expansion, most significant digit first. -/
def hexDigitsAux : Nat → Nat → List Nat
  | 0, _ => []
  | fuel + 1, n =>
      if n < 16 then [hexDigitCode n]
      else hexDigitsAux fuel (n / 16) ++ [hexDigitCode (n % 16)]

/-- The digits of `'%x' % n` as a byte string (no padding). -/
def hexDigits (n : Nat) : List Nat := hexDigitsAux (n + 1) n

/-- `'%08x' % n`: lowercase hex, zero-padded on the left to at least
8 characters. -/
def hex8 (n : Nat) : List Nat :=
  List.replicate (8 - (hexDigits n).length) 48 ++ hexDigits n

/-! ### `WriteFirmware._GetFlashScript` / `WriteFirmware.PrepareFlasher` -/

/-- The load-address marker `replace_me = 'zsHEXYla'` that
`_GetFlashScript` embeds in the generated boot script and returns to
`PrepareFlasher`. -/
def replace_me : String := "zsHEXYla"

/-- `replace_me` as a byte string. -/
def replaceMeBytes : List Nat := replace_me.data.map Char.toNat

/-- `WriteFirmware.PrepareFlasher`, data level.  Inputs are the bytes the
surrounding tool calls produce: `uboot` (`ReadFile(uboot)`), `fdtData`
(`ReadFile(fdt.fname)` after `fdt.PutString` embedded the script carrying
`replace_me`), `payload` (`ReadFile(payload)`), and the fdt-declared
`text_base` (non-negative case).  Returns the flasher image bytes that
`WriteFile` would write.

Steps, as in the source: `payload_offset = len(data) + len(fdt_data)`
rounded up to the 4096-byte `alignment`; `load_address = text_base +
payload_offset` (the source builds a 1-tuple here, which `'%08x' %` then
unwraps); check the replacement hex string has the marker's length; check
the marker occurs exactly once; substitute; concatenate
`uboot + fdt + zero padding + payload`. -/
def prepareFlasherData (textBase : Nat) (uboot fdtData payload : List Nat) :
    Except Err (List Nat) :=
  let payloadOffset := RoundUp (uboot.length + fdtData.length) 4096
  let loadAddress := textBase + payloadOffset
  let newStr := hex8 loadAddress
  if replaceMeBytes.length ≠ newStr.length then .error .lengthMismatch
  else
    let nMatches := countMatches replaceMeBytes fdtData
    if nMatches ≠ 1 then .error (.matchCount nMatches)
    else
      let fdtData := replaceAll replaceMeBytes newStr fdtData
      let data := uboot ++ fdtData
      let data := data ++ List.replicate (payloadOffset - data.length) 0
      .ok (data ++ payload)

/-! ### `Bundle._UpdateChecksum`, `Bundle._UpdateBl2Parameters`,
`Bundle.ConfigureExynosBl2` -/

/-- `Bundle._UpdateChecksum`: replace the last 4 bytes with the
little-endian byte sum (mod 2^32) of everything before them
(`data[:-4] + struct.pack('<L', checksum & 0xffffffff)`). -/
def updateChecksum (data : List Nat) : List Nat :=
  data.take (data.length - 4) ++
    le32enc (byteSum (data.take (data.length - 4)) % 4294967296)

/-- The board-configuration values `_UpdateBl2Parameters` reads from the
device tree (`fdt.GetString('/dmc', ...)`, `fdt.GetInt('/dmc',
'clock-frequency')`) and from `Bundle.spl_source`. -/
structure BoardConfig where
  memType : String
  memManuf : String
  clockFrequency : Nat
  splSource : String
deriving DecidableEq, Repr

/-- `struct.pack('<L', 0xdeadbeef)`: the 4-byte little-endian machine
parameter block marker. -/
def markerBytes : List Nat := [0xef, 0xbe, 0xad, 0xde]

/-- `version, size = struct.unpack('<2L', data[pos + 4:pos + 12])`. -/
def readBl2Header (data : List Nat) (pos : Int) : Except Err (Nat × Nat) :=
  let s := pySlice data (pos + 4) (pos + 12)
  if s.length = 8 then .ok (le32dec (s.take 4), le32dec (s.drop 4))
  else .error .structError

/-- One iteration body of the parameter loop: resolve the value to store
for parameter code `param` (a byte), given the current slot value.
Output `Info`/`Warning` messages are elided; only the fatal raises are
kept.  Byte codes: 109 = `'m'`, 77 = `'M'`, 102 = `'f'`, 118 = `'v'`,
117 = `'u'`, 98 = `'b'`. -/
def resolveParam (cfg : BoardConfig) (spl_load_size : Nat)
    (param oldValue : Nat) : Except Err Nat :=
  if param = 109 then
    let memTypes := ["ddr2", "ddr3", "lpddr2", "lpddr3"]
    if ¬ memTypes.contains cfg.memType then .error (.unknownMemType cfg.memType)
    else .ok (memTypes.indexOf cfg.memType)
  else if param = 77 then
    let memManufs := ["autodetect", "elpida", "samsung"]
    if ¬ memManufs.contains cfg.memManuf then
      .error (.unknownMemManuf cfg.memManuf)
    else .ok (memManufs.indexOf cfg.memManuf)
  else if param = 102 then
    -- Out-of-range speeds only produce a (elided) warning and are used as-is.
    .ok (cfg.clockFrequency / 1000000)
  else if param = 118 then .ok 31
  else if param = 117 then .ok (maskAlign (spl_load_size + 0xfff) 0x1000)
  else if param = 98 then
    if cfg.splSource = "straps" then .ok 32
    else if cfg.splSource = "emmc" then .ok 4
    else if cfg.splSource = "spi" then .ok 20
    else if cfg.splSource = "usb" then .ok 33
    else .error (.invalidBootSource cfg.splSource)
  else
    -- Unknown parameter: warn (elided) and keep the existing slot value.
    .ok oldValue

/-- The `for param in param_list` loop of `_UpdateBl2Parameters`: unpack
each 4-byte slot at `data[pos + upto:pos + upto + 4]`, resolve the value,
pack it onto `new_data`. -/
def bl2ParamLoop (cfg : BoardConfig) (spl_load_size : Nat) (data : List Nat)
    (pos : Int) : List Nat → Nat → Except Err (List Nat)
  | [], _ => .ok []
  | param :: rest, upto => do
      let oldValue ← unpack32 (pySlice data (pos + upto) (pos + upto + 4))
      let value ← resolveParam cfg spl_load_size param oldValue
      let packed ← pack32 value
      let tail ← bl2ParamLoop cfg spl_load_size data pos rest (upto + 4)
      .ok (packed ++ tail)

/-- Python `x & ~3` on an `int` of either sign: subtract `x % 4`
(`Int.emod` is non-negative for the positive modulus, like Python `%`). -/
def alignDown4 (x : Int) : Int := x - x % 4

/-- The tail of `_UpdateBl2Parameters` after the version and size checks:
`pos += 12`; `param_list = struct.unpack('<%ds' % (len(data) - pos),
data[pos:])[0]` (the `'<%ds'` unpack needs exactly `len(data) - pos`
bytes); `param_len = param_list.find('\0')`;
`pos += (param_len + 4) & ~3`; run the parameter loop; splice `new_data`
over the value slots. -/
def bl2PatchSlots (cfg : BoardConfig) (spl_load_size : Nat)
    (data : List Nat) (pos : Int) : Except Err (List Nat) :=
  let pos := pos + 12
  let area := pyDrop data pos
  if (area.length : Int) ≠ (data.length : Int) - pos then
    throw .structError
  else
    let param_len := listFind 0 area
    let param_list := pyTake area param_len
    let pos := pos + alignDown4 (param_len + 4)
    (bl2ParamLoop cfg spl_load_size data pos param_list 0) >>=
      fun new_data =>
        .ok (pyTake data pos ++ new_data ++
          pyDrop data (pos + new_data.length))

/-- The body of `_UpdateBl2Parameters` after the header was unpacked. -/
def bl2AfterHeader (cfg : BoardConfig) (spl_load_size : Nat)
    (data : List Nat) (pos : Int) (version size : Nat) :
    Except Err (List Nat) :=
  if version ≠ 1 then throw (.badVersion version)
  else if (size : Int) < 0 ∨ pos + size > data.length then
    throw (.badSize size)
  else bl2PatchSlots cfg spl_load_size data pos

/-- `Bundle._UpdateBl2Parameters`.  `pos` is the marker position handed in
by `ConfigureExynosBl2` (which can be `-1`, see `configureExynosBl2`). -/
def updateBl2Parameters (cfg : BoardConfig) (spl_load_size : Nat)
    (data : List Nat) (pos : Int) : Except Err (List Nat) := do
  let (version, size) ← readBl2Header data pos
  bl2AfterHeader cfg spl_load_size data pos version size

/-- `Bundle.ConfigureExynosBl2` on the BL2 bytes: locate the last
occurrence of the marker with `rfind`, test it with `if not pos:` (Python
truthiness: this raises only when the marker is at offset 0 and lets the
not-found result `-1` through), patch the parameters, then update the
checksum. -/
def configureExynosBl2 (cfg : BoardConfig) (spl_load_size : Nat)
    (data : List Nat) : Except Err (List Nat) :=
  let pos := listRfind markerBytes data
  if pos = 0 then .error .notFound
  else do
    let d ← updateBl2Parameters cfg spl_load_size data pos
    .ok (updateChecksum d)

/-! ### `Bundle.DecodeTextBase`, `Bundle.CalcTextBase` -/

/-- The little-endian sentinel `0x12345678` preceding the TEXT_BASE word
in a U-Boot header. -/
def textBaseSentinel : Nat := 0x12345678

/-- The scanned word offsets of one window: `range(start, start + 160, 4)`. -/
def windowIdxs (start : Nat) : List Nat := List.range' start 40 4

/-- The inner loop of `DecodeTextBase` over one window's offsets: unpack
`data[i:i + 4]`; once the sentinel was seen, return the next word's value
minus `start`; otherwise record whether this word is the sentinel.
Returns `(some result, _)` on the early `return`, `(none, found)` when the
offsets are exhausted. -/
def textBaseScan (data : List Nat) (start : Nat) :
    List Nat → Bool → Except Err (Option Int × Bool)
  | [], found => .ok (none, found)
  | i :: rest, found => do
      let value ← unpack32 (pySlice data (i : Int) ((i : Int) + 4))
      if found then .ok (some ((value : Int) - start), found)
      else textBaseScan data start rest (found || (value == textBaseSentinel))

/-- `Bundle.DecodeTextBase`: scan the windows at 0 and 0x4000 (160 bytes
each, 4-byte steps) for the sentinel; `found` carries across windows;
`.ok none` models the `return None` fall-through. -/
def decodeTextBase (data : List Nat) : Except Err (Option Int) := do
  let (r1, found) ← textBaseScan data 0 (windowIdxs 0) false
  match r1 with
  | some v => .ok (some v)
  | none => do
      let (r2, _) ← textBaseScan data 0x4000 (windowIdxs 0x4000) found
      .ok r2

/-- The data of the warning `CalcTextBase` prints when it switches from the
fdt-declared TEXT_BASE to the decoded one: `"TEXT_BASE %x in %sU-Boot
doesn't match fdt value of %x. Using %x" % (text_base, name, fdt_text_base,
text_base)`. -/
structure TextBaseWarning where
  text_base : Int
  name : String
  fdt_text_base : Int
deriving DecidableEq, Repr

/-- `Bundle.CalcTextBase` on the bytes of `fname`: decode the TEXT_BASE
from the image; `if text_base and text_base != fdt_text_base:` switches to
the decoded value and warns — by Python truthiness a decoded value of `0`
(like a failed decode `None`) keeps the fdt value and does not warn.
`fdt_text_base` is the `fdt.GetInt('/chromeos-config', 'textbase', 0)`
result; `Info` output is elided. -/
def calcTextBase (name : String) (fdt_text_base : Int) (data : List Nat) :
    Except Err (Int × Option TextBaseWarning) := do
  let text_base ← decodeTextBase data
  match text_base with
  | some v =>
      if v ≠ 0 ∧ v ≠ fdt_text_base then
        .ok (v, some ⟨v, name, fdt_text_base⟩)
      else .ok (fdt_text_base, none)
  | none => .ok (fdt_text_base, none)

/-! ### `WriteFirmware.NvidiaFlashImage` retry loop -/

/-- The substring of a `tegrarcm` error that marks the recoverable
"device not enumerated yet" condition. -/
def notEnumerated : String := "could not open USB device"

/-- Observable outcome of the `for _ in range(10)` upload loop of
`NvidiaFlashImage`: the returned boolean, the number of `tegrarcm`
invocations, the error messages passed to `Notice` (in order), and the
number of `time.sleep(1)` calls. -/
structure NvFlashOutcome where
  ok : Bool
  invocations : Nat
  noticed : List String
  sleeps : Nat
deriving DecidableEq, Repr

/-- One pass of the retry loop.  `outcomes attempt` is the result of the
`attempt`-th `tegrarcm` run: `none` for success, `some err` for a
`CmdError` whose text is `err`.  `remaining` counts the loop iterations
left (10 at the top).  Mirrors the source: success returns `True`; on
error, a non-tty stdout returns `False` at once; an error without the
`notEnumerated` substring re-raises; an error text different from the last
shown one is noticed (plus the connect `Progress` prompt, elided);
`time.sleep(1)`; after 10 failed iterations return `False`. -/
def nvFlashLoop (stdoutIsTty : Bool) (outcomes : Nat → Option String) :
    Nat → Nat → Option String → List String → Nat →
    Except String NvFlashOutcome
  | 0, attempt, _, noticed, sleeps => .ok ⟨false, attempt, noticed, sleeps⟩
  | remaining + 1, attempt, lastErr, noticed, sleeps =>
      match outcomes attempt with
      | none => .ok ⟨true, attempt + 1, noticed, sleeps⟩
      | some err =>
          if ¬ stdoutIsTty then .ok ⟨false, attempt + 1, noticed, sleeps⟩
          else if ¬ listContains (notEnumerated.data.map Char.toNat)
              (err.data.map Char.toNat) then
            .error ("tegrarcm failed: " ++ err)
          else if some err ≠ lastErr then
            nvFlashLoop stdoutIsTty outcomes remaining (attempt + 1)
              (some err) (noticed ++ [err]) (sleeps + 1)
          else
            nvFlashLoop stdoutIsTty outcomes remaining (attempt + 1)
              lastErr noticed (sleeps + 1)

/-- The upload retry loop of `NvidiaFlashImage` (`last_err = None`,
`for _ in range(10)`). -/
def nvidiaFlashRetry (stdoutIsTty : Bool) (outcomes : Nat → Option String) :
    Except String NvFlashOutcome :=
  nvFlashLoop stdoutIsTty outcomes 10 0 none [] 0

/-! ### `WriteFirmware.ExynosFlashImage` servo sequencing -/

/-- Servo control state: the value of each dut-control line, by name. -/
def ServoState : Type := String → String

/-- Apply a dut-control argument list of `name:value` settings in order.
A `sleep:…` entry is a delay, not a control line, and changes nothing. -/
def applyControls (s : ServoState) (args : List (String × String)) :
    ServoState :=
  args.foldl
    (fun st kv =>
      if kv.1 = "sleep" then st
      else fun k => if k = kv.1 then kv.2 else st k)
    s

/-- The `dut_hub_sel` value the transfer needs. -/
def requiredDutHubSel : String := "dut_sees_servo"

/-- The three-stage download loop of `ExynosFlashImage` (the `try:` body).
`waitOk stage` tells whether `_WaitForUSBDevice` sees the board before
stage `stage`; `dlOk stage` whether the `smdk-usbdl` run for that stage
succeeds (a failed run raises `CmdError`).  After the BL2 stage (index 1)
the power button is released and `fw_up` turned off via dut-control.
Returns the loop's outcome together with the servo state when the loop is
left (by completion or by the raised error). -/
def exynosStageLoop (waitOk dlOk : Nat → Bool) :
    List Nat → ServoState → Except String Unit × ServoState
  | [], s => (.ok (), s)
  | upto :: rest, s =>
      if ¬ waitOk upto then
        if upto = 0 then (.error "Could not find Exynos board on USB port", s)
        else (.error "Stage did not complete", s)
      else if ¬ dlOk upto then (.error "smdk-usbdl failed", s)
      else
        let s := if upto = 1 then
            applyControls s [("fw_up", "off"), ("pwr_button", "release")]
          else s
        exynosStageLoop waitOk dlOk rest s

/-- The dut-control argument list applied before the stage loop: the
cold-reset pulse prepended to the warm-reset/power-button sequence, plus
`dut_hub_sel:dut_sees_servo` when the preserved value differs. -/
def exynosInitArgs (preserved : String) : List (String × String) :=
  [("cold_reset", "on"), ("sleep", ".2"), ("cold_reset", "off")] ++
    ([("warm_reset", "on"), ("fw_up", "on"), ("pwr_button", "press"),
      ("sleep", ".1"), ("warm_reset", "off")] ++
      (if preserved ≠ requiredDutHubSel then
        [("dut_hub_sel", requiredDutHubSel)] else []))

/-- The dut-control argument list of the `finally:` block: release the
power button, turn `fw_up` off, and restore `dut_hub_sel` when it had to
be changed. -/
def exynosFinalArgs (preserved : String) : List (String × String) :=
  [("fw_up", "off"), ("pwr_button", "release")] ++
    (if preserved ≠ requiredDutHubSel then [("dut_hub_sel", preserved)]
     else [])

/-- `WriteFirmware.ExynosFlashImage`, servo-state level.  dut-control
invocations are modelled as reliable state updates; the external
`lsusb`/`smdk-usbdl` runs are the `waitOk`/`dlOk` oracles.  The sequence:
read `dut_hub_sel` (preserved value), apply the cold/warm reset + power
button sequence (plus `dut_hub_sel` when it must change), run the stage
loop inside `try:`, and in `finally:` release the power button, turn
`fw_up` off and restore a changed `dut_hub_sel`.  Returns the function
result (`True` or the propagated `CmdError`) and the final servo state. -/
def exynosFlashImage (s0 : ServoState) (waitOk dlOk : Nat → Bool) :
    Except String Bool × ServoState :=
  let preserved := s0 "dut_hub_sel"
  let s1 := applyControls s0 (exynosInitArgs preserved)
  -- for upto in range(len(download_list)), download_list has 3 items
  let (r, s2) := exynosStageLoop waitOk dlOk [0, 1, 2] s1
  let s3 := applyControls s2 (exynosFinalArgs preserved)
  (r.map (fun _ => true), s3)

/-! ### Helper lemmas about the byte-string primitives -/

theorem pySlice_natCast (l : List Nat) (a b : Nat) :
    pySlice l (a : Int) (b : Int) = (l.drop a).take (b - a) := by
  unfold pySlice pyBound
  have ha : ¬ ((a : Int) < 0) := by omega
  have hb : ¬ ((b : Int) < 0) := by omega
  simp only [if_neg ha, if_neg hb, Int.toNat_natCast]
  rcases le_or_lt b l.length with h | h
  · rw [min_eq_left h]
    rcases le_or_lt a l.length with h2 | h2
    · rw [min_eq_left h2, List.drop_take]
    · rw [min_eq_right h2.le, List.drop_take]
      rw [List.drop_eq_nil_of_le (by simp), List.drop_eq_nil_of_le (by omega)]
      simp
  · rw [min_eq_right h.le]
    rcases le_or_lt a l.length with h2 | h2
    · rw [min_eq_left h2, List.take_length, List.take_of_length_le]
      simp; omega
    · rw [min_eq_right h2.le, List.take_length,
        List.drop_eq_nil_of_le (le_refl _), List.drop_eq_nil_of_le h2.le]
      simp

theorem pyDrop_natCast (l : List Nat) (a : Nat) :
    pyDrop l (a : Int) = l.drop a := by
  unfold pyDrop
  rw [show (l.length : Int) = ((l.length : Nat) : Int) from rfl,
    pySlice_natCast]
  exact List.take_of_length_le (by simp)

theorem pyTake_natCast (l : List Nat) (b : Nat) :
    pyTake l (b : Int) = l.take b := by
  unfold pyTake
  rw [show (0 : Int) = ((0 : Nat) : Int) from rfl, pySlice_natCast]
  simp

theorem length_take_drop (l : List Nat) (a k : Nat) :
    ((l.drop a).take k).length = min k (l.length - a) := by
  simp [List.length_take]

theorem take_drop_length_eq_iff (l : List Nat) (a k : Nat) (hk : 0 < k) :
    ((l.drop a).take k).length = k ↔ a + k ≤ l.length := by
  rw [length_take_drop]
  omega

theorem length_le32enc (v : Nat) : (le32enc v).length = 4 := rfl

theorem le32dec_le32enc (v : Nat) (h : v < 4294967296) :
    le32dec (le32enc v) = v := by
  simp only [le32enc, le32dec]
  omega

theorem le32enc_mod_injective (a b : Nat)
    (h : le32enc (a % 4294967296) = le32enc (b % 4294967296)) :
    a % 4294967296 = b % 4294967296 := by
  have := congrArg le32dec h
  rwa [le32dec_le32enc _ (Nat.mod_lt _ (by norm_num)),
    le32dec_le32enc _ (Nat.mod_lt _ (by norm_num))] at this

theorem byteSum_go (l : List Nat) : ∀ a, l.foldl (· + ·) a = a + l.sum := by
  induction l with
  | nil => simp
  | cons x xs ih => intro a; simp [List.foldl_cons, ih, List.sum_cons]; omega

theorem byteSum_eq_sum (l : List Nat) : byteSum l = l.sum := by
  unfold byteSum; rw [byteSum_go]; omega

theorem sum_set_add (l : List Nat) (i v : Nat) (h : i < l.length) :
    (l.set i v).sum + l[i] = l.sum + v := by
  induction l generalizing i with
  | nil => simp at h
  | cons x xs ih =>
      cases i with
      | zero => simp [List.sum_cons]; omega
      | succ j =>
          have hset : (x :: xs).set (j + 1) v = x :: xs.set j v := rfl
          rw [hset]
          simp only [List.sum_cons, List.getElem_cons_succ]
          have := ih j (by simpa using h)
          omega

theorem replaceAllAux_length (pattern repl : List Nat)
    (hlen : repl.length = pattern.length) :
    ∀ fuel s, (replaceAllAux pattern repl fuel s).length = s.length := by
  intro fuel
  induction fuel with
  | zero => intro s; rfl
  | succ n ih =>
      intro s
      match s with
      | [] => rfl
      | c :: rest =>
          rw [replaceAllAux]
          by_cases h : pattern.isPrefixOf (c :: rest)
          · rw [if_pos h]
            have hle : pattern.length ≤ (c :: rest).length :=
              (List.isPrefixOf_iff_prefix.mp h).length_le
            simp only [List.length_append, hlen, ih, List.length_drop]
            omega
          · rw [if_neg h]
            simp [ih]

theorem replaceAll_length (pattern repl s : List Nat)
    (hlen : repl.length = pattern.length) :
    (replaceAll pattern repl s).length = s.length :=
  replaceAllAux_length pattern repl hlen s.length s

theorem listFind_nonneg_spec (v : Nat) (l : List Nat) (j : Nat)
    (h : listFind v l = (j : Int)) :
    ∃ hj : j < l.length, l[j] = v ∧ ∀ m < j, ∃ hm : m < l.length, l[m] ≠ v := by
  induction l generalizing j with
  | nil => simp [listFind] at h
  | cons x xs ih =>
      rw [listFind] at h
      by_cases hx : x = v
      · rw [if_pos hx] at h
        have : j = 0 := by omega
        subst this
        exact ⟨by simp, by simpa using hx,
          fun m hm => absurd hm (Nat.not_lt_zero m)⟩
      · rw [if_neg hx] at h
        simp only at h
        by_cases hr : listFind v xs = -1
        · rw [if_pos hr] at h; omega
        · rw [if_neg hr] at h
          have hj : 1 ≤ j := by
            rcases j with _ | j
            · exfalso
              have : listFind v xs = -1 := by omega
              exact hr this
            · omega
          have h2 : listFind v xs = ((j - 1 : Nat) : Int) := by
            have : ((j : Int)) - 1 = ((j - 1 : Nat) : Int) := by omega
            omega
          obtain ⟨hlt, heq, hbefore⟩ := ih (j - 1) h2
          have hjlt : j < (x :: xs).length := by simp; omega
          refine ⟨hjlt, ?_, ?_⟩
          · have hgoal : (x :: xs)[j] = xs.get ⟨j - 1, hlt⟩ := by
              rcases j with _ | j
              · omega
              · simp
            rw [hgoal]
            simpa using heq
          · intro m hm
            rcases m with _ | m
            · exact ⟨by simp, by simpa using hx⟩
            · obtain ⟨hm2, hne⟩ := hbefore m (by omega)
              exact ⟨by simp; omega, by simpa using hne⟩

theorem listFind_stable (v : Nat) (l l2 : List Nat) (j k : Nat)
    (hagree : l.take k = l2.take k) (hjk : j < k)
    (h : listFind v l = (j : Int)) : listFind v l2 = (j : Int) := by
  induction l generalizing l2 k j with
  | nil => simp [listFind] at h
  | cons x xs ih =>
      rcases k with _ | k
      · omega
      rcases l2 with _ | ⟨y, ys⟩
      · simp at hagree
      simp only [List.take_succ_cons, List.cons.injEq] at hagree
      obtain ⟨hxy, htail⟩ := hagree
      subst hxy
      rw [listFind] at h ⊢
      by_cases hx : x = v
      · rw [if_pos hx] at h ⊢; exact h
      · rw [if_neg hx] at h ⊢
        simp only at h ⊢
        by_cases hr : listFind v xs = -1
        · rw [if_pos hr] at h; omega
        · rw [if_neg hr] at h
          have hj : 1 ≤ j := by
            rcases j with _ | j
            · exfalso
              have : listFind v xs = -1 := by omega
              exact hr this
            · omega
          have h2 : listFind v xs = ((j - 1 : Nat) : Int) := by omega
          have := ih ys (j - 1) k htail (by omega) h2
          rw [this, if_neg (by omega)]
          omega

/-! ### Lemmas about the `DecodeTextBase` scan -/

theorem ok_bind {e a b : Type} (x : a) (f : a → Except e b) :
    (Except.ok x >>= f) = f x := rfl

theorem error_bind {e a b : Type} (err : e) (f : a → Except e b) :
    ((Except.error err : Except e a) >>= f) = .error err := rfl

theorem slice4_eq (data : List Nat) (i : Nat) :
    pySlice data (i : Int) ((i : Int) + 4) = (data.drop i).take 4 := by
  have h : ((i : Int) + 4) = ((i + 4 : Nat) : Int) := by push_cast; ring
  rw [h, pySlice_natCast]
  congr 1
  omega

theorem textBaseScan_none (data : List Nat) (start : Nat) :
    ∀ idxs, (∀ i ∈ idxs, i + 4 ≤ data.length ∧
        le32dec ((data.drop i).take 4) ≠ textBaseSentinel) →
      textBaseScan data start idxs false = .ok (none, false) := by
  intro idxs
  induction idxs with
  | nil => intro _; rfl
  | cons i rest ih =>
      intro h
      obtain ⟨hlen, hnot⟩ := h i (by simp)
      have h4 : ((data.drop i).take 4).length = 4 :=
        (take_drop_length_eq_iff data i 4 (by norm_num)).mpr hlen
      have hbeq : (le32dec ((data.drop i).take 4) == textBaseSentinel) = false :=
        by simpa using hnot
      rw [textBaseScan, slice4_eq]
      simp only [unpack32, if_pos h4, ok_bind, Bool.false_eq_true,
        if_false, Bool.false_or, hbeq]
      exact ih (fun j hj => h j (by simp [hj]))

theorem textBaseScan_first_match (data : List Nat) (start : Nat) :
    ∀ pre, (∀ p ∈ pre, p + 4 ≤ data.length ∧
        le32dec ((data.drop p).take 4) ≠ textBaseSentinel) →
      ∀ i j post, i + 4 ≤ data.length →
        le32dec ((data.drop i).take 4) = textBaseSentinel →
        j + 4 ≤ data.length →
        textBaseScan data start (pre ++ i :: j :: post) false =
          .ok (some ((le32dec ((data.drop j).take 4) : Int) - start), true) := by
  intro pre
  induction pre with
  | nil =>
      intro _ i j post hi hsent hj
      have hi4 : ((data.drop i).take 4).length = 4 :=
        (take_drop_length_eq_iff data i 4 (by norm_num)).mpr hi
      have hj4 : ((data.drop j).take 4).length = 4 :=
        (take_drop_length_eq_iff data j 4 (by norm_num)).mpr hj
      have hbeq : (le32dec ((data.drop i).take 4) == textBaseSentinel) = true :=
        by simpa using hsent
      rw [List.nil_append, textBaseScan, slice4_eq]
      simp only [unpack32, if_pos hi4, ok_bind, Bool.false_eq_true,
        if_false, Bool.false_or, hbeq]
      rw [textBaseScan, slice4_eq]
      simp only [unpack32, if_pos hj4, ok_bind]
      simp
  | cons p pre ih =>
      intro h i j post hi hsent hj
      obtain ⟨hlen, hnot⟩ := h p (by simp)
      have h4 : ((data.drop p).take 4).length = 4 :=
        (take_drop_length_eq_iff data p 4 (by norm_num)).mpr hlen
      have hbeq : (le32dec ((data.drop p).take 4) == textBaseSentinel) = false :=
        by simpa using hnot
      rw [List.cons_append, textBaseScan, slice4_eq]
      simp only [unpack32, if_pos h4, ok_bind, Bool.false_eq_true,
        if_false, Bool.false_or, hbeq]
      exact ih (fun q hq => h q (by simp [hq])) i j post hi hsent hj

theorem textBaseScan_ok_none_bounds (data : List Nat) (start : Nat) :
    ∀ idxs (found : Bool) (r : Option Int × Bool),
      textBaseScan data start idxs found = .ok r → r.1 = none →
      ∀ i ∈ idxs, i + 4 ≤ data.length := by
  intro idxs
  induction idxs with
  | nil => intro _ _ _ _ i hi; simp at hi
  | cons i rest ih =>
      intro found r hscan hnone j hj
      rw [textBaseScan, slice4_eq] at hscan
      by_cases h4 : ((data.drop i).take 4).length = 4
      · have hle : i + 4 ≤ data.length :=
          (take_drop_length_eq_iff data i 4 (by norm_num)).mp h4
        simp only [unpack32, if_pos h4, ok_bind] at hscan
        rcases List.mem_cons.mp hj with rfl | hj2
        · exact hle
        · by_cases hf : found = true
          · rw [if_pos hf] at hscan
            cases hscan
            simp at hnone
          · rw [if_neg hf] at hscan
            exact ih _ r hscan hnone j hj2
      · simp only [unpack32, if_neg h4, error_bind] at hscan
        cases hscan

theorem textBaseScan_total (data : List Nat) (start : Nat) :
    ∀ idxs (found : Bool), (∀ i ∈ idxs, i + 4 ≤ data.length) →
      ∃ r, textBaseScan data start idxs found = .ok r := by
  intro idxs
  induction idxs with
  | nil => intro found _; exact ⟨(none, found), rfl⟩
  | cons i rest ih =>
      intro found h
      have h4 : ((data.drop i).take 4).length = 4 :=
        (take_drop_length_eq_iff data i 4 (by norm_num)).mpr (h i (by simp))
      rw [textBaseScan, slice4_eq]
      simp only [unpack32, if_pos h4, ok_bind]
      by_cases hf : found = true
      · rw [if_pos hf]
        exact ⟨_, rfl⟩
      · rw [if_neg hf]
        exact ih _ (fun j hj => h j (by simp [hj]))

theorem windowIdxs_split (start j : Nat) (h : j + 2 ≤ 40) :
    windowIdxs start = List.range' start j 4 ++
      (start + 4 * j) :: (start + 4 * j + 4) ::
        List.range' (start + 4 * j + 8) (40 - j - 2) 4 := by
  unfold windowIdxs
  have h1 : List.range' start j 4 ++ List.range' (start + 4 * j) (40 - j) 4 =
      List.range' start ((40 - j) + j) 4 := List.range'_append start j (40 - j) 4
  have h2 : (40 - j) + j = 40 := by omega
  rw [h2] at h1
  rw [← h1]
  congr 1
  obtain ⟨m, hm⟩ : ∃ m, 40 - j = m + 1 + 1 := ⟨40 - j - 2, by omega⟩
  rw [hm, List.range'_succ, List.range'_succ]
  congr 2

theorem mem_windowIdxs (start i : Nat) :
    i ∈ windowIdxs start ↔ ∃ k < 40, i = start + 4 * k := by
  unfold windowIdxs
  exact List.mem_range'

/-- The continuation of `decodeTextBase` after the first window's scan
produced `(o, f)`. -/
def decodeTail (data : List Nat) (o : Option Int) (f : Bool) :
    Except Err (Option Int) :=
  match o with
  | some v => .ok (some v)
  | none => textBaseScan data 0x4000 (windowIdxs 0x4000) f >>=
      fun r2 => .ok r2.1

theorem decode_after_w1 (data : List Nat) (o : Option Int) (f : Bool)
    (h1 : textBaseScan data 0 (windowIdxs 0) false = .ok (o, f)) :
    decodeTextBase data = decodeTail data o f := by
  rw [decodeTextBase, h1]
  cases o <;> rfl

/-- C6: `DecodeTextBase` scans the 160-byte windows at offsets 0 and
0x4000 in 4-byte steps; with no sentinel in either window (and the buffer
covering both windows) it returns `None`; when the first sentinel of
window 0 sits at word index `j`, the value of the next word (minus the
window start 0) is returned; when window 0 has no sentinel and window
0x4000's first sentinel sits at its word index `j`, the next word's value
minus 0x4000 is returned. -/
theorem decodeTextBase_windows (data : List Nat) :
    ((∀ i ∈ windowIdxs 0 ++ windowIdxs 0x4000,
        i + 4 ≤ data.length ∧
          le32dec ((data.drop i).take 4) ≠ textBaseSentinel) →
      decodeTextBase data = .ok none) ∧
    (∀ j, j + 2 ≤ 40 →
      (∀ k < j, le32dec ((data.drop (4 * k)).take 4) ≠ textBaseSentinel) →
      le32dec ((data.drop (4 * j)).take 4) = textBaseSentinel →
      4 * j + 8 ≤ data.length →
      decodeTextBase data =
        .ok (some ((le32dec ((data.drop (4 * j + 4)).take 4) : Int) - 0))) ∧
    (∀ j, j + 2 ≤ 40 →
      (∀ i ∈ windowIdxs 0, le32dec ((data.drop i).take 4) ≠ textBaseSentinel) →
      (∀ k < j, le32dec ((data.drop (0x4000 + 4 * k)).take 4) ≠
        textBaseSentinel) →
      le32dec ((data.drop (0x4000 + 4 * j)).take 4) = textBaseSentinel →
      0x40a0 ≤ data.length →
      decodeTextBase data =
        .ok (some ((le32dec ((data.drop (0x4000 + 4 * j + 4)).take 4) : Int) -
          0x4000))) := by
  refine ⟨?_, ?_, ?_⟩
  · intro h
    have h1 : textBaseScan data 0 (windowIdxs 0) false = .ok (none, false) :=
      textBaseScan_none data 0 _ (fun i hi => h i (by simp [hi]))
    have h2 : textBaseScan data 0x4000 (windowIdxs 0x4000) false =
        .ok (none, false) :=
      textBaseScan_none data 0x4000 _ (fun i hi => h i (by simp [hi]))
    rw [decode_after_w1 data none false h1]
    simp only [decodeTail]
    rw [h2]
    rfl
  · intro j hj hbefore hsent hlen
    have hpre : ∀ p ∈ List.range' 0 j 4, p + 4 ≤ data.length ∧
        le32dec ((data.drop p).take 4) ≠ textBaseSentinel := by
      intro p hp
      obtain ⟨k, hk, rfl⟩ := List.mem_range'.mp hp
      constructor
      · omega
      · simpa using hbefore k hk
    have h1 : textBaseScan data 0 (windowIdxs 0) false =
        .ok (some ((le32dec ((data.drop (4 * j + 4)).take 4) : Int) - 0),
          true) := by
      rw [windowIdxs_split 0 j hj]
      simp only [Nat.zero_add]
      exact textBaseScan_first_match data 0 _ hpre (4 * j) (4 * j + 4) _
        (by omega) hsent (by omega)
    rw [decode_after_w1 data _ true h1]
    rfl
  · intro j hj hw0 hbefore hsent hlen
    have hw0full : ∀ i ∈ windowIdxs 0, i + 4 ≤ data.length ∧
        le32dec ((data.drop i).take 4) ≠ textBaseSentinel := by
      intro i hi
      obtain ⟨k, hk, rfl⟩ := (mem_windowIdxs 0 i).mp hi
      exact ⟨by omega, hw0 _ hi⟩
    have h1 : textBaseScan data 0 (windowIdxs 0) false = .ok (none, false) :=
      textBaseScan_none data 0 _ hw0full
    have hpre : ∀ p ∈ List.range' 0x4000 j 4, p + 4 ≤ data.length ∧
        le32dec ((data.drop p).take 4) ≠ textBaseSentinel := by
      intro p hp
      obtain ⟨k, hk, rfl⟩ := List.mem_range'.mp hp
      exact ⟨by omega, hbefore k hk⟩
    have h2 : textBaseScan data 0x4000 (windowIdxs 0x4000) false =
        .ok (some ((le32dec ((data.drop (0x4000 + 4 * j + 4)).take 4) : Int) -
          0x4000), true) := by
      rw [windowIdxs_split 0x4000 j hj]
      exact textBaseScan_first_match data 0x4000 _ hpre (0x4000 + 4 * j)
        (0x4000 + 4 * j + 4) _ (by omega) hsent (by omega)
    rw [decode_after_w1 data none false h1]
    simp only [decodeTail]
    rw [h2]
    rfl

/-- Sample buffer for the text-base decode scenario: sentinel `0x12345678`
at byte offset 8, followed by the word `0x00108000`. -/
def textBaseSample : List Nat :=
  List.replicate 8 0 ++ le32enc 0x12345678 ++ le32enc 0x00108000

theorem decodeTextBase_windows_witness :
    decodeTextBase textBaseSample = .ok (some 0x00108000) ∧
    decodeTextBase (List.replicate 0x40a0 0) = .ok none := by
  constructor
  · have h := (decodeTextBase_windows textBaseSample).2.1 2 (by norm_num)
      (by decide) (by decide) (by decide)
    exact h.trans rfl
  · refine (decodeTextBase_windows (List.replicate 0x40a0 0)).1 ?_
    intro i hi
    have hlen : i + 4 ≤ 0x40a0 := by
      rcases List.mem_append.mp hi with h | h
      · obtain ⟨k, hk, rfl⟩ := (mem_windowIdxs 0 i).mp h
        omega
      · obtain ⟨k, hk, rfl⟩ := (mem_windowIdxs 0x4000 i).mp h
        omega
    constructor
    · rw [List.length_replicate]
      exact hlen
    · rw [List.drop_replicate, List.take_replicate]
      have h4 : min 4 (0x40a0 - i) = 4 := by omega
      rw [h4]
      decide

/-- C10: `DecodeTextBase` has no bounds check: on a buffer shorter than
0x40a0 bytes it can never fall through to the `None` result — if no early
sentinel return happens, some 4-byte unpack sees a short slice and raises
`struct.error`; on buffers of at least 0x40a0 bytes it never raises. -/
theorem decodeTextBase_totality (data : List Nat) :
    (data.length < 0x40a0 → decodeTextBase data ≠ .ok none) ∧
    (0x40a0 ≤ data.length → ∀ e, decodeTextBase data ≠ .error e) := by
  constructor
  · intro hlen hok
    cases hs1 : textBaseScan data 0 (windowIdxs 0) false with
    | error e =>
        rw [decodeTextBase, hs1] at hok
        exact Except.noConfusion hok
    | ok r =>
        obtain ⟨o, f⟩ := r
        rw [decode_after_w1 data o f hs1] at hok
        cases o with
        | some v => simp [decodeTail] at hok
        | none =>
            simp only [decodeTail] at hok
            cases hs2 : textBaseScan data 0x4000 (windowIdxs 0x4000) f with
            | error e =>
                rw [hs2] at hok
                exact Except.noConfusion hok
            | ok r2 =>
                rw [hs2, ok_bind] at hok
                have h21 : r2.1 = none := by
                  simpa using hok
                have hb := textBaseScan_ok_none_bounds data 0x4000 _ f r2
                  hs2 h21 (0x4000 + 4 * 39)
                  ((mem_windowIdxs 0x4000 _).mpr ⟨39, by norm_num, rfl⟩)
                omega
  · intro hlen e herr
    have hb1 : ∀ i ∈ windowIdxs 0, i + 4 ≤ data.length := by
      intro i hi
      obtain ⟨k, hk, rfl⟩ := (mem_windowIdxs 0 i).mp hi
      omega
    obtain ⟨r1, hs1⟩ := textBaseScan_total data 0 _ false hb1
    obtain ⟨o, f⟩ := r1
    rw [decode_after_w1 data o f hs1] at herr
    cases o with
    | some v => simp [decodeTail] at herr
    | none =>
        have hb2 : ∀ i ∈ windowIdxs 0x4000, i + 4 ≤ data.length := by
          intro i hi
          obtain ⟨k, hk, rfl⟩ := (mem_windowIdxs 0x4000 i).mp hi
          omega
        obtain ⟨r2, hs2⟩ := textBaseScan_total data 0x4000 _ f hb2
        simp only [decodeTail] at herr
        rw [hs2, ok_bind] at herr
        exact Except.noConfusion herr

theorem decodeTextBase_totality_witness :
    decodeTextBase ([] : List Nat) ≠ .ok none ∧
    decodeTextBase (List.replicate 0x40a0 0) ≠ .error .structError := by
  constructor
  · exact (decodeTextBase_totality []).1 (by simp)
  · exact (decodeTextBase_totality _).2
      (by rw [List.length_replicate]) .structError

/-! ### `CalcTextBase` claims -/

/-- A buffer whose decoded TEXT_BASE is 0: sentinel at offset 0 followed
by the word 0. -/
def zeroDecodeSample : List Nat := le32enc 0x12345678 ++ le32enc 0

/-- C7 counterexample: the claim says a decoded text base that differs from
the declared one is returned as authoritative with a warning.  Here the
image decodes to text base `0`, the declared value is `0x108000`, they
differ — yet `CalcTextBase` returns the declared value and emits no
warning, because `if text_base and ...` treats the decoded `0` as falsy. -/
theorem calcTextBase_decoded_zero_loses :
    decodeTextBase zeroDecodeSample = .ok (some 0) ∧
    (0 : Int) ≠ 0x108000 ∧
    calcTextBase "u-boot" 0x108000 zeroDecodeSample = .ok (0x108000, none) :=
  ⟨rfl, by decide, rfl⟩

/-- The continuation of `CalcTextBase` after the decode produced `o`. -/
def calcTail (name : String) (declared : Int) (o : Option Int) :
    Except Err (Int × Option TextBaseWarning) :=
  match o with
  | some v =>
      if v ≠ 0 ∧ v ≠ declared then .ok (v, some ⟨v, name, declared⟩)
      else .ok (declared, none)
  | none => .ok (declared, none)

theorem calc_after_decode (name : String) (declared : Int) (data : List Nat)
    (o : Option Int) (h : decodeTextBase data = .ok o) :
    calcTextBase name declared data = calcTail name declared o := by
  rw [calcTextBase, h]
  cases o <;> rfl

/-- C7 amended: when a *non-zero* text base is decoded and differs from the
fdt-declared one, the decoded value is returned and a warning carrying both
values and the source name is emitted; when the decoded value equals the
declared one, or is 0, or nothing is decoded, the declared value is
returned without a warning. -/
theorem calcTextBase_spec (name : String) (declared : Int) (data : List Nat) :
    (∀ v, decodeTextBase data = .ok (some v) → v ≠ 0 → v ≠ declared →
      calcTextBase name declared data = .ok (v, some ⟨v, name, declared⟩)) ∧
    (∀ v, decodeTextBase data = .ok (some v) → v ≠ 0 → v = declared →
      calcTextBase name declared data = .ok (declared, none)) ∧
    (decodeTextBase data = .ok (some 0) →
      calcTextBase name declared data = .ok (declared, none)) ∧
    (decodeTextBase data = .ok none →
      calcTextBase name declared data = .ok (declared, none)) := by
  refine ⟨?_, ?_, ?_, ?_⟩
  · intro v hdec hv0 hvd
    rw [calc_after_decode name declared data _ hdec]
    simp only [calcTail]
    rw [if_pos ⟨hv0, hvd⟩]
  · intro v hdec hv0 hvd
    rw [calc_after_decode name declared data _ hdec]
    simp only [calcTail]
    rw [if_neg (fun hc => hc.2 hvd)]
  · intro hdec
    rw [calc_after_decode name declared data _ hdec]
    simp only [calcTail]
    rw [if_neg (fun hc => hc.1 rfl)]
  · intro hdec
    rw [calc_after_decode name declared data _ hdec]
    rfl

/-- A buffer decoding to text base `0x10c000`: sentinel at offset 0,
next word `0x10c000`. -/
def upstreamDecodeSample : List Nat := le32enc 0x12345678 ++ le32enc 0x10c000

theorem calcTextBase_spec_witness :
    calcTextBase "flasher " 0x108000 upstreamDecodeSample =
      .ok (0x10c000, some ⟨0x10c000, "flasher ", 0x108000⟩) :=
  (calcTextBase_spec "flasher " 0x108000 upstreamDecodeSample).1 0x10c000
    rfl (by decide) (by decide)

/-! ### `_UpdateChecksum` claims -/

/-- C3: for any byte string of at least 4 bytes, `_UpdateChecksum` leaves
everything before the last 4 bytes unchanged and writes the little-endian
byte sum (mod 2^32) of those bytes as the last 4 bytes; corrupting any
single byte before the checksum (to a different byte value) while leaving
the trailing 4 bytes alone makes the stored checksum differ from the
recomputed one. -/
theorem updateChecksum_spec (B : List Nat) (hlen : 4 ≤ B.length)
    (hbytes : ∀ b ∈ B, b < 256) :
    (updateChecksum B).take (B.length - 4) = B.take (B.length - 4) ∧
    (updateChecksum B).drop (B.length - 4) =
      le32enc (byteSum (B.take (B.length - 4)) % 4294967296) ∧
    ∀ i v, i < B.length - 4 → v < 256 → v ≠ B.getD i 0 →
      (updateChecksum ((updateChecksum B).set i v)).drop (B.length - 4) ≠
        ((updateChecksum B).set i v).drop (B.length - 4) := by
  have hT : (B.take (B.length - 4)).length = B.length - 4 := by
    rw [List.length_take]
    omega
  refine ⟨?_, ?_, ?_⟩
  · unfold updateChecksum
    rw [List.take_left' hT]
  · unfold updateChecksum
    rw [List.drop_left' hT]
  · intro i v hi hv hne heq
    have hiB : i < B.length := by omega
    have hCB : (updateChecksum B).length = B.length := by
      unfold updateChecksum
      rw [List.length_append, hT, length_le32enc]
      omega
    have hC'len : ((updateChecksum B).set i v).length = B.length := by
      rw [List.length_set, hCB]
    have htakeC : (updateChecksum B).take (B.length - 4) =
        B.take (B.length - 4) := by
      unfold updateChecksum
      rw [List.take_left' hT]
    have hdropC : (updateChecksum B).drop (B.length - 4) =
        le32enc (byteSum (B.take (B.length - 4)) % 4294967296) := by
      unfold updateChecksum
      rw [List.drop_left' hT]
    -- the prefix of the corrupted string is the corrupted prefix of B
    have htakeset : ((updateChecksum B).set i v).take (B.length - 4) =
        (B.take (B.length - 4)).set i v := by
      rw [List.set_take, htakeC]
    have hT' : (((updateChecksum B).set i v).take (B.length - 4)).length =
        B.length - 4 := by
      rw [List.length_take, hC'len]
      omega
    have huC' : updateChecksum ((updateChecksum B).set i v) =
        ((updateChecksum B).set i v).take (B.length - 4) ++
          le32enc (byteSum
            (((updateChecksum B).set i v).take (B.length - 4)) %
              4294967296) := by
      conv_lhs => rw [updateChecksum]
      rw [hC'len]
    -- the unchanged trailing bytes of the corrupted string
    have hdropset : ((updateChecksum B).set i v).drop (B.length - 4) =
        (updateChecksum B).drop (B.length - 4) := by
      rw [List.drop_set, if_pos hi]
    rw [huC', List.drop_left' hT', htakeset, hdropset, hdropC] at heq
    -- extract the modular equality of the two byte sums
    have hsums := le32enc_mod_injective _ _ heq
    have hset := sum_set_add (B.take (B.length - 4)) i v (by omega)
    have hTi : (B.take (B.length - 4))[i] = B[i] := List.getElem_take B
    have hBi : B[i] < 256 := hbytes _ (B.getElem_mem hiB)
    have hgetD : B.getD i 0 = B[i] := List.getD_eq_getElem B 0 hiB
    rw [byteSum_eq_sum, byteSum_eq_sum] at hsums
    rw [hTi] at hset
    rw [hgetD] at hne
    omega

theorem updateChecksum_spec_witness :
    (updateChecksum [1, 2, 3, 4, 0, 0, 0, 0]).take 4 = [1, 2, 3, 4] ∧
    (updateChecksum [1, 2, 3, 4, 0, 0, 0, 0]).drop 4 = le32enc 10 ∧
    (updateChecksum
        ((updateChecksum [1, 2, 3, 4, 0, 0, 0, 0]).set 0 9)).drop 4 ≠
      ((updateChecksum [1, 2, 3, 4, 0, 0, 0, 0]).set 0 9).drop 4 := by
  have h := updateChecksum_spec [1, 2, 3, 4, 0, 0, 0, 0] (by decide)
    (by decide)
  exact ⟨h.1.trans (by decide), h.2.1.trans (by decide),
    h.2.2 0 9 (by decide) (by decide) (by decide)⟩

/-! ### `PrepareFlasher` claims -/

/-- C1: on every successful run, `PrepareFlasher` computes the payload
offset as `len(uboot) + len(fdt)` rounded up to the next 4096-byte
boundary, substitutes the hex form of `text_base + payload_offset` for the
marker inside the fdt, and lays the image out as
`uboot ++ substituted fdt ++ zero padding ++ payload`, so the payload
bytes start exactly at the payload offset. -/
theorem prepareFlasher_layout (textBase : Nat)
    (uboot fdtData payload img : List Nat)
    (h : prepareFlasherData textBase uboot fdtData payload = .ok img) :
    uboot.length + fdtData.length ≤
        RoundUp (uboot.length + fdtData.length) 4096 ∧
    RoundUp (uboot.length + fdtData.length) 4096 <
        uboot.length + fdtData.length + 4096 ∧
    RoundUp (uboot.length + fdtData.length) 4096 % 4096 = 0 ∧
    img = uboot ++
      replaceAll replaceMeBytes
        (hex8 (textBase + RoundUp (uboot.length + fdtData.length) 4096))
        fdtData ++
      List.replicate (RoundUp (uboot.length + fdtData.length) 4096 -
        (uboot.length + fdtData.length)) 0 ++ payload ∧
    img.drop (RoundUp (uboot.length + fdtData.length) 4096) = payload ∧
    img.length =
      RoundUp (uboot.length + fdtData.length) 4096 + payload.length := by
  have hround : uboot.length + fdtData.length ≤
        RoundUp (uboot.length + fdtData.length) 4096 ∧
      RoundUp (uboot.length + fdtData.length) 4096 <
        uboot.length + fdtData.length + 4096 ∧
      RoundUp (uboot.length + fdtData.length) 4096 % 4096 = 0 := by
    unfold RoundUp maskAlign
    omega
  simp only [prepareFlasherData] at h
  split_ifs at h with h1 h2
  · cases h
    have hlen8 : (hex8 (textBase +
        RoundUp (uboot.length + fdtData.length) 4096)).length =
        replaceMeBytes.length := by omega
    have hfdt : (replaceAll replaceMeBytes
        (hex8 (textBase + RoundUp (uboot.length + fdtData.length) 4096))
        fdtData).length = fdtData.length :=
      replaceAll_length _ _ _ hlen8
    set fdtSub := replaceAll replaceMeBytes
      (hex8 (textBase + RoundUp (uboot.length + fdtData.length) 4096))
      fdtData with hfdtSub
    have hprefix : (uboot ++ fdtSub ++
        List.replicate (RoundUp (uboot.length + fdtData.length) 4096 -
          (uboot.length + fdtData.length)) 0).length =
        RoundUp (uboot.length + fdtData.length) 4096 := by
      simp only [List.length_append, List.length_replicate, hfdt]
      omega
    refine ⟨hround.1, hround.2.1, hround.2.2, ?_, ?_, ?_⟩
    · simp [List.length_append, List.append_assoc, hfdt]
    · rw [show uboot ++ fdtSub ++
          List.replicate (RoundUp (uboot.length + fdtData.length) 4096 -
            (uboot ++ fdtSub).length) 0 ++ payload =
          (uboot ++ fdtSub ++
            List.replicate (RoundUp (uboot.length + fdtData.length) 4096 -
              (uboot.length + fdtData.length)) 0) ++ payload by
        simp [List.length_append, List.append_assoc, hfdt]]
      exact List.drop_left' hprefix
    · simp only [List.length_append, List.length_replicate, hfdt]
      omega

/-- U-Boot bytes of the claim scenario (length 100). -/
def flasherUboot : List Nat := List.replicate 100 1

/-- fdt bytes of the claim scenario (length 50, marker occurs once). -/
def flasherFdt : List Nat := replaceMeBytes ++ List.replicate 42 7

/-- The flasher image built from the claim scenario. -/
def flasherSample : List Nat :=
  match prepareFlasherData 0x108000 flasherUboot flasherFdt [9, 9, 9] with
  | .ok l => l
  | .error _ => []

theorem prepareFlasher_layout_witness :
    RoundUp (100 + 50) 4096 = 4096 ∧
    flasherSample.drop 4096 = [9, 9, 9] ∧
    flasherSample.length = 4096 + 3 := by
  have h : prepareFlasherData 0x108000 flasherUboot flasherFdt [9, 9, 9] =
      .ok flasherSample := rfl
  have hs := prepareFlasher_layout 0x108000 flasherUboot flasherFdt
    [9, 9, 9] flasherSample h
  exact ⟨by decide, hs.2.2.2.2.1, hs.2.2.2.2.2⟩

/-- C2: the placeholder the script generator hands to `PrepareFlasher` is
exactly 8 characters; substitution fails fatally when the formatted hex
load address does not have the placeholder's length, or when the
placeholder does not occur exactly once in the fdt bytes; and a successful
substitution leaves the fdt byte length unchanged. -/
theorem prepareFlasher_marker_checks :
    replaceMeBytes.length = 8 ∧
    ∀ textBase : Nat, ∀ uboot fdtData payload : List Nat,
      ((hex8 (textBase +
          RoundUp (uboot.length + fdtData.length) 4096)).length ≠ 8 →
        prepareFlasherData textBase uboot fdtData payload =
          .error .lengthMismatch) ∧
      ((hex8 (textBase +
          RoundUp (uboot.length + fdtData.length) 4096)).length = 8 →
        countMatches replaceMeBytes fdtData ≠ 1 →
        prepareFlasherData textBase uboot fdtData payload =
          .error (.matchCount (countMatches replaceMeBytes fdtData))) ∧
      ∀ img, prepareFlasherData textBase uboot fdtData payload = .ok img →
        (replaceAll replaceMeBytes
          (hex8 (textBase + RoundUp (uboot.length + fdtData.length) 4096))
          fdtData).length = fdtData.length := by
  have hrm : replaceMeBytes.length = 8 := by decide
  refine ⟨hrm, ?_⟩
  intro textBase uboot fdtData payload
  refine ⟨?_, ?_, ?_⟩
  · intro hne
    simp only [prepareFlasherData]
    rw [if_pos (by omega)]
  · intro heq hcount
    simp only [prepareFlasherData]
    rw [if_neg (by omega), if_pos hcount]
  · intro img h
    simp only [prepareFlasherData] at h
    split_ifs at h with h1 h2
    · exact replaceAll_length _ _ _ (by omega)

/-- fdt bytes with the marker occurring once, for the success case. -/
def markerOnlyFdt : List Nat := replaceMeBytes

/-- The flasher image built from `markerOnlyFdt` (payload offset 4096,
load address `0 + 4096`). -/
def markerOnlySample : List Nat :=
  match prepareFlasherData 0 [] markerOnlyFdt [] with
  | .ok l => l
  | .error _ => []

theorem prepareFlasher_marker_checks_witness :
    prepareFlasherData 0xffffffff [] replaceMeBytes [] =
      .error .lengthMismatch ∧
    prepareFlasherData 0 [] [] [] = .error (.matchCount 0) ∧
    (replaceAll replaceMeBytes (hex8 (0 + RoundUp (0 + 8) 4096))
      markerOnlyFdt).length = 8 := by
  refine ⟨?_, ?_, ?_⟩
  · exact ((prepareFlasher_marker_checks).2 0xffffffff [] replaceMeBytes
      []).1 (by decide)
  · exact ((prepareFlasher_marker_checks).2 0 [] [] []).2.1 (by decide)
      (by decide)
  · have h : prepareFlasherData 0 [] markerOnlyFdt [] =
        .ok markerOnlySample := rfl
    have hs := ((prepareFlasher_marker_checks).2 0 [] markerOnlyFdt []).2.2
      markerOnlySample h
    simpa using hs

/-! ### `NvidiaFlashImage` retry-loop claims -/

theorem nvStepNewErr (outcomes : Nat → Option String) (e : String)
    (hc : listContains (notEnumerated.data.map Char.toNat)
      (e.data.map Char.toNat) = true)
    (rem att : Nat) (lastErr : Option String) (noticed : List String)
    (sleeps : Nat) (hatt : outcomes att = some e) (hne : some e ≠ lastErr) :
    nvFlashLoop true outcomes (rem + 1) att lastErr noticed sleeps =
      nvFlashLoop true outcomes rem (att + 1) (some e) (noticed ++ [e])
        (sleeps + 1) := by
  simp only [nvFlashLoop, hatt, hc]
  simp [hne]

theorem nvStepSameErr (outcomes : Nat → Option String) (e : String)
    (hc : listContains (notEnumerated.data.map Char.toNat)
      (e.data.map Char.toNat) = true)
    (rem att : Nat) (noticed : List String) (sleeps : Nat)
    (hatt : outcomes att = some e) :
    nvFlashLoop true outcomes (rem + 1) att (some e) noticed sleeps =
      nvFlashLoop true outcomes rem (att + 1) (some e) noticed
        (sleeps + 1) := by
  simp only [nvFlashLoop, hatt, hc]
  simp

theorem nvStepOk (outcomes : Nat → Option String) (rem att : Nat)
    (lastErr : Option String) (noticed : List String) (sleeps : Nat)
    (hatt : outcomes att = none) :
    nvFlashLoop true outcomes (rem + 1) att lastErr noticed sleeps =
      .ok ⟨true, att + 1, noticed, sleeps⟩ := by
  simp only [nvFlashLoop, hatt]

theorem nvStepFatal (outcomes : Nat → Option String) (e : String)
    (hc : listContains (notEnumerated.data.map Char.toNat)
      (e.data.map Char.toNat) = false)
    (rem att : Nat) (lastErr : Option String) (noticed : List String)
    (sleeps : Nat) (hatt : outcomes att = some e) :
    nvFlashLoop true outcomes (rem + 1) att lastErr noticed sleeps =
      .error ("tegrarcm failed: " ++ e) := by
  simp only [nvFlashLoop, hatt, hc]
  simp

theorem nvConstErr (e : String)
    (hc : listContains (notEnumerated.data.map Char.toNat)
      (e.data.map Char.toNat) = true) :
    ∀ rem att sleeps,
      nvFlashLoop true (fun _ => some e) rem att (some e) [e] sleeps =
        .ok ⟨false, att + rem, [e], sleeps + rem⟩ := by
  intro rem
  induction rem with
  | zero => intro att sleeps; simp [nvFlashLoop]
  | succ n ih =>
      intro att sleeps
      rw [nvStepSameErr (fun _ => some e) e hc n att [e] sleeps rfl,
        ih (att + 1) (sleeps + 1)]
      have h1 : att + 1 + n = att + (n + 1) := by omega
      have h2 : sleeps + 1 + n = sleeps + (n + 1) := by omega
      rw [h1, h2]

/-- C8 counterexample: the claim omits the tty guard.  With stdout not a
tty, a single recoverable "could not open USB device" failure is *not*
retried: the loop returns failure after exactly one invocation, with no
sleep and nothing logged — the same outcome sequence succeeds after 2
invocations when stdout is a tty. -/
theorem nvidiaFlash_no_tty_no_retry :
    nvidiaFlashRetry false
        (fun k => if k = 0 then some notEnumerated else none) =
      .ok ⟨false, 1, [], 0⟩ ∧
    nvidiaFlashRetry true
        (fun k => if k = 0 then some notEnumerated else none) =
      .ok ⟨true, 2, [notEnumerated], 1⟩ := by
  constructor
  · rfl
  · rfl

/-- C8 amended: with stdout a tty, a failed `tegrarcm` run whose error
text contains "could not open USB device" is retried up to 10 total
attempts with a 1-second sleep after each failure, noticing the error text
only when it differs from the previously noticed one; a failure with any
other text raises `CmdError` at once.  Three recoverable failures followed
by a success give exactly 4 invocations, success, and one log entry; a
permanently recoverable failure gives 10 invocations and failure with one
log entry. -/
theorem nvidiaFlashRetry_spec :
    (∀ (outcomes : Nat → Option String) (e : String),
      listContains (notEnumerated.data.map Char.toNat)
        (e.data.map Char.toNat) = true →
      outcomes 0 = some e → outcomes 1 = some e → outcomes 2 = some e →
      outcomes 3 = none →
      nvidiaFlashRetry true outcomes = .ok ⟨true, 4, [e], 3⟩) ∧
    (∀ (outcomes : Nat → Option String) (e : String),
      listContains (notEnumerated.data.map Char.toNat)
        (e.data.map Char.toNat) = false →
      outcomes 0 = some e →
      nvidiaFlashRetry true outcomes = .error ("tegrarcm failed: " ++ e)) ∧
    (∀ e : String,
      listContains (notEnumerated.data.map Char.toNat)
        (e.data.map Char.toNat) = true →
      nvidiaFlashRetry true (fun _ => some e) =
        .ok ⟨false, 10, [e], 10⟩) := by
  refine ⟨?_, ?_, ?_⟩
  · intro outcomes e hc h0 h1 h2 h3
    calc nvidiaFlashRetry true outcomes
        = nvFlashLoop true outcomes (9 + 1) 0 none [] 0 := rfl
      _ = nvFlashLoop true outcomes (8 + 1) 1 (some e) [e] 1 :=
          nvStepNewErr outcomes e hc 9 0 none [] 0 h0 (by simp)
      _ = nvFlashLoop true outcomes (7 + 1) 2 (some e) [e] 2 :=
          nvStepSameErr outcomes e hc 8 1 [e] 1 h1
      _ = nvFlashLoop true outcomes (6 + 1) 3 (some e) [e] 3 :=
          nvStepSameErr outcomes e hc 7 2 [e] 2 h2
      _ = .ok ⟨true, 4, [e], 3⟩ := nvStepOk outcomes 6 3 (some e) [e] 3 h3
  · intro outcomes e hc h0
    calc nvidiaFlashRetry true outcomes
        = nvFlashLoop true outcomes (9 + 1) 0 none [] 0 := rfl
      _ = .error ("tegrarcm failed: " ++ e) :=
          nvStepFatal outcomes e hc 9 0 none [] 0 h0
  · intro e hc
    calc nvidiaFlashRetry true (fun _ => some e)
        = nvFlashLoop true (fun _ => some e) (9 + 1) 0 none [] 0 := rfl
      _ = nvFlashLoop true (fun _ => some e) 9 1 (some e) [e] 1 :=
          nvStepNewErr (fun _ => some e) e hc 9 0 none [] 0 rfl (by simp)
      _ = .ok ⟨false, 10, [e], 10⟩ := nvConstErr e hc 9 1 1

theorem nvidiaFlashRetry_spec_witness :
    nvidiaFlashRetry true
        (fun k => if k < 3 then some notEnumerated else none) =
      .ok ⟨true, 4, [notEnumerated], 3⟩ ∧
    nvidiaFlashRetry true (fun _ => some "usb error") =
      .error "tegrarcm failed: usb error" := by
  constructor
  · exact (nvidiaFlashRetry_spec).1
      (fun k => if k < 3 then some notEnumerated else none) notEnumerated
      (by decide) rfl rfl rfl rfl
  · exact (nvidiaFlashRetry_spec).2.1 (fun _ => some "usb error")
      "usb error" (by decide) rfl

/-! ### `ExynosFlashImage` servo-cleanup claims -/

theorem exynosStageLoop_preserves (waitOk dlOk : Nat → Bool) :
    ∀ stages (s : ServoState) (k : String), k ≠ "fw_up" →
      k ≠ "pwr_button" →
      ((exynosStageLoop waitOk dlOk stages s).2) k = s k := by
  intro stages
  induction stages with
  | nil => intro s k _ _; rfl
  | cons upto rest ih =>
      intro s k h1 h2
      rw [exynosStageLoop]
      by_cases hw : waitOk upto
      · simp only [hw, not_true_eq_false, if_false]
        by_cases hd : dlOk upto
        · simp only [hd, not_true_eq_false, if_false]
          rw [ih]
          · by_cases hu : upto = 1
            · simp [hu, applyControls, h1, h2]
            · simp [hu]
          · exact h1
          · exact h2
        · simp [hd]
      · have hw2 : waitOk upto = false := by simpa using hw
        by_cases h0 : upto = 0
        · subst h0
          simp [hw2]
        · simp [hw2, h0]

theorem exynosFlashImage_snd (s0 : ServoState) (waitOk dlOk : Nat → Bool) :
    (exynosFlashImage s0 waitOk dlOk).2 =
      applyControls
        (exynosStageLoop waitOk dlOk [0, 1, 2]
          (applyControls s0 (exynosInitArgs (s0 "dut_hub_sel")))).2
        (exynosFinalArgs (s0 "dut_hub_sel")) := rfl

theorem exynosFinalArgs_pwr (s : ServoState) (pres : String) :
    applyControls s (exynosFinalArgs pres) "pwr_button" = "release" := by
  by_cases hd : pres ≠ requiredDutHubSel <;>
    simp [exynosFinalArgs, applyControls, hd]

theorem exynosFinalArgs_fw (s : ServoState) (pres : String) :
    applyControls s (exynosFinalArgs pres) "fw_up" = "off" := by
  by_cases hd : pres ≠ requiredDutHubSel <;>
    simp [exynosFinalArgs, applyControls, hd]

theorem exynosFinalArgs_other (s : ServoState) (pres k : String)
    (h1 : k ≠ "fw_up") (h2 : k ≠ "pwr_button") (h3 : k ≠ "dut_hub_sel") :
    applyControls s (exynosFinalArgs pres) k = s k := by
  by_cases hd : pres ≠ requiredDutHubSel <;>
    simp [exynosFinalArgs, applyControls, hd, h1, h2, h3]

theorem exynosInitArgs_other (s : ServoState) (pres k : String)
    (h1 : k ≠ "cold_reset") (h2 : k ≠ "warm_reset") (h3 : k ≠ "fw_up")
    (h4 : k ≠ "pwr_button") (h5 : k ≠ "dut_hub_sel") :
    applyControls s (exynosInitArgs pres) k = s k := by
  by_cases hd : pres ≠ requiredDutHubSel <;>
    simp [exynosInitArgs, applyControls, hd, h1, h2, h3, h4, h5]

theorem exynosInitArgs_warm (s : ServoState) (pres : String) :
    applyControls s (exynosInitArgs pres) "warm_reset" = "off" := by
  by_cases hd : pres ≠ requiredDutHubSel <;>
    simp [exynosInitArgs, applyControls, hd]

theorem exynosInitArgs_cold (s : ServoState) (pres : String) :
    applyControls s (exynosInitArgs pres) "cold_reset" = "off" := by
  by_cases hd : pres ≠ requiredDutHubSel <;>
    simp [exynosInitArgs, applyControls, hd]

theorem exynosInitArgs_dut_unchanged (s : ServoState) (pres : String)
    (hd : ¬ pres ≠ requiredDutHubSel) :
    applyControls s (exynosInitArgs pres) "dut_hub_sel" =
      s "dut_hub_sel" := by
  simp [exynosInitArgs, applyControls, hd]

theorem exynosFinalArgs_dut_restore (s : ServoState) (pres : String)
    (hd : pres ≠ requiredDutHubSel) :
    applyControls s (exynosFinalArgs pres) "dut_hub_sel" = pres := by
  simp [exynosFinalArgs, applyControls, hd]

theorem exynosFinalArgs_dut_unchanged (s : ServoState) (pres : String)
    (hd : ¬ pres ≠ requiredDutHubSel) :
    applyControls s (exynosFinalArgs pres) "dut_hub_sel" =
      s "dut_hub_sel" := by
  simp [exynosFinalArgs, applyControls, hd]

/-- C9: however the three-stage Exynos transfer loop exits — all stages
done, a stage failure, or a raised `CmdError` from a download — the
`finally:` cleanup leaves the power button released and `fw_up` off,
`dut_hub_sel` is back at the value read before the transfer, the reset
lines pulsed for the transfer end in their released (`off`) state, and
every other servo control still has its pre-call value. -/
theorem exynosFlashImage_cleanup (s0 : ServoState)
    (waitOk dlOk : Nat → Bool) :
    (exynosFlashImage s0 waitOk dlOk).2 "pwr_button" = "release" ∧
    (exynosFlashImage s0 waitOk dlOk).2 "fw_up" = "off" ∧
    (exynosFlashImage s0 waitOk dlOk).2 "dut_hub_sel" = s0 "dut_hub_sel" ∧
    (exynosFlashImage s0 waitOk dlOk).2 "warm_reset" = "off" ∧
    (exynosFlashImage s0 waitOk dlOk).2 "cold_reset" = "off" ∧
    ∀ k, k ≠ "pwr_button" → k ≠ "fw_up" → k ≠ "dut_hub_sel" →
      k ≠ "warm_reset" → k ≠ "cold_reset" →
      (exynosFlashImage s0 waitOk dlOk).2 k = s0 k := by
  rw [exynosFlashImage_snd]
  refine ⟨exynosFinalArgs_pwr _ _, exynosFinalArgs_fw _ _, ?_, ?_, ?_, ?_⟩
  · by_cases hd : s0 "dut_hub_sel" ≠ requiredDutHubSel
    · exact exynosFinalArgs_dut_restore _ _ hd
    · rw [exynosFinalArgs_dut_unchanged _ _ hd,
        exynosStageLoop_preserves waitOk dlOk _ _ _ (by decide) (by decide),
        exynosInitArgs_dut_unchanged _ _ hd]
  · rw [exynosFinalArgs_other _ _ _ (by decide) (by decide) (by decide),
      exynosStageLoop_preserves waitOk dlOk _ _ _ (by decide) (by decide)]
    exact exynosInitArgs_warm _ _
  · rw [exynosFinalArgs_other _ _ _ (by decide) (by decide) (by decide),
      exynosStageLoop_preserves waitOk dlOk _ _ _ (by decide) (by decide)]
    exact exynosInitArgs_cold _ _
  · intro k h1 h2 h3 h4 h5
    rw [exynosFinalArgs_other _ _ _ h2 h1 h3,
      exynosStageLoop_preserves waitOk dlOk _ _ _ h2 h1]
    exact exynosInitArgs_other _ _ _ h5 h4 h2 h1 h3

theorem exynosFlashImage_cleanup_witness :
    (exynosFlashImage (fun _ => "x") (fun _ => true) (fun k => k ≠ 2)).2
        "pwr_button" = "release" ∧
    (exynosFlashImage (fun _ => "x") (fun _ => true) (fun k => k ≠ 2)).2
        "dut_hub_sel" = "x" ∧
    (exynosFlashImage (fun _ => "x") (fun _ => true) (fun k => k ≠ 2)).2
        "spi2_vref" = "x" := by
  have h := exynosFlashImage_cleanup (fun _ => "x") (fun _ => true)
    (fun k => k ≠ 2)
  exact ⟨h.1, h.2.2.1, h.2.2.2.2.2 "spi2_vref" (by decide) (by decide)
    (by decide) (by decide) (by decide)⟩

/-! ### `ConfigureExynosBl2` parameter-block location claims -/

theorem filter_range_getLast_max (p : Nat → Bool) :
    ∀ n i, ((List.range n).filter p).getLast? = some i →
      p i = true ∧ ∀ j, p j = true → j < n → j ≤ i := by
  intro n
  induction n with
  | zero => intro i h; simp at h
  | succ n ih =>
      intro i h
      rw [List.range_succ, List.filter_append] at h
      by_cases hp : p n
      · have hfil : List.filter p [n] = [n] := by simp [hp]
        rw [hfil, List.getLast?_concat] at h
        cases h
        exact ⟨hp, fun j _ hjn => by omega⟩
      · have hfil : List.filter p [n] = [] := by
          simp [List.filter_cons, hp]
        rw [hfil, List.append_nil] at h
        obtain ⟨hpi, hmax⟩ := ih i h
        refine ⟨hpi, fun j hj hjn => ?_⟩
        have hne : j ≠ n := by
          intro he
          subst he
          exact hp hj
        exact hmax j hj (by omega)

theorem listRfind_spec (pattern data : List Nat) (i : Nat)
    (hp : pattern ≠ []) (h : listRfind pattern data = (i : Int)) :
    pattern.isPrefixOf (data.drop i) = true ∧
    ∀ j, i < j → pattern.isPrefixOf (data.drop j) = false := by
  unfold listRfind at h
  cases hg : ((List.range (data.length + 1)).filter
      (fun idx => pattern.isPrefixOf (data.drop idx))).getLast? with
  | none => rw [hg] at h; simp at h
  | some m =>
      rw [hg] at h
      simp only at h
      have hmi : m = i := by omega
      subst hmi
      obtain ⟨hpi, hmax⟩ := filter_range_getLast_max _ _ _ hg
      refine ⟨hpi, fun j hj => ?_⟩
      by_cases hjlen : j < data.length + 1
      · by_cases hpj : pattern.isPrefixOf (data.drop j) = true
        · have := hmax j hpj hjlen
          omega
        · simp only [Bool.not_eq_true] at hpj
          exact hpj
      · rw [List.drop_eq_nil_of_le (by omega)]
        cases pattern with
        | nil => exact absurd rfl hp
        | cons c rest => rfl

/-- A 20-byte binary containing no `0xdeadbeef` marker anywhere, yet laid
out so that the version word read from `data[3:11]` (the slice the patcher
reads once `rfind` has returned `-1`) is 1 and the size passes the bounds
check. -/
def markerlessBl2 : List Nat :=
  [0, 0, 0, 1, 0, 0, 0, 4, 0, 0, 0, 0, 0, 0, 0, 0, 0, 0, 0, 0]

/-- A board configuration used for concrete runs. -/
def sampleConfig : BoardConfig :=
  ⟨"ddr3", "samsung", 800000000, "straps"⟩

/-- C4 counterexample: the marker is `struct.pack('<L', 0xdeadbeef)` —
4 bytes, not 8 — and a binary with no marker at all is *not* a fatal
error: `rfind` returns `-1`, the guard `if not pos:` only fires at 0, and
the patcher runs to completion on `markerlessBl2`, returning a patched,
checksummed binary. -/
theorem configureExynosBl2_missing_marker_not_fatal :
    markerBytes.length = 4 ∧
    listContains markerBytes markerlessBl2 = false ∧
    listRfind markerBytes markerlessBl2 = -1 ∧
    configureExynosBl2 sampleConfig 0 markerlessBl2 =
      .ok [0, 0, 0, 1, 0, 0, 0, 4, 0, 0, 0, 0, 0, 0, 0, 0, 5, 0, 0, 0] :=
  ⟨rfl, rfl, rfl, rfl⟩

/-- C4 amended: the patcher locates the block at the *last* occurrence of
the 4-byte little-endian marker `0xdeadbeef`; due to the Python truthiness
slip `if not pos:`, a marker at offset 0 raises the "could not find" error
while a binary with no marker (`rfind = -1`) proceeds into the patcher
with `pos = -1`; a version field ≠ 1 raises a fatal error before any
checksum recomputation, and a declared size reaching past the end of the
binary raises a fatal error. -/
theorem configureExynosBl2_locate_checks (cfg : BoardConfig)
    (spl_load_size : Nat) (data : List Nat) :
    markerBytes = le32enc 0xdeadbeef ∧
    (∀ i : Nat, listRfind markerBytes data = (i : Int) →
      markerBytes.isPrefixOf (data.drop i) = true ∧
      ∀ j, i < j → markerBytes.isPrefixOf (data.drop j) = false) ∧
    (listRfind markerBytes data = 0 →
      configureExynosBl2 cfg spl_load_size data = .error .notFound) ∧
    (listRfind markerBytes data = -1 →
      (∀ d, updateBl2Parameters cfg spl_load_size data (-1) = .ok d →
        configureExynosBl2 cfg spl_load_size data =
          .ok (updateChecksum d)) ∧
      (∀ e, updateBl2Parameters cfg spl_load_size data (-1) = .error e →
        configureExynosBl2 cfg spl_load_size data = .error e)) ∧
    (∀ pos version size, listRfind markerBytes data = pos → pos ≠ 0 →
      readBl2Header data pos = .ok (version, size) →
      (version ≠ 1 →
        configureExynosBl2 cfg spl_load_size data =
          .error (.badVersion version)) ∧
      (version = 1 → (pos + (size : Int)) > data.length →
        configureExynosBl2 cfg spl_load_size data =
          .error (.badSize size))) := by
  refine ⟨rfl, ?_, ?_, ?_, ?_⟩
  · intro i h
    exact listRfind_spec markerBytes data i (by decide) h
  · intro h
    simp only [configureExynosBl2, h]
    rfl
  · intro h
    constructor
    · intro d hupd
      simp only [configureExynosBl2, h]
      rw [hupd]
      rfl
    · intro e hupd
      simp only [configureExynosBl2, h]
      rw [hupd]
      rfl
  · intro pos version size hrf hpos hhdr
    have hupd : updateBl2Parameters cfg spl_load_size data pos =
        bl2AfterHeader cfg spl_load_size data pos version size := by
      rw [updateBl2Parameters, hhdr, ok_bind]
    constructor
    · intro hver
      have hafter : bl2AfterHeader cfg spl_load_size data pos version size =
          .error (.badVersion version) := by
        rw [bl2AfterHeader, if_pos hver]
        rfl
      simp only [configureExynosBl2, hrf]
      rw [if_neg hpos, hupd, hafter, error_bind]
    · intro hver hsz
      have hafter : bl2AfterHeader cfg spl_load_size data pos version size =
          .error (.badSize size) := by
        rw [bl2AfterHeader, if_neg (by omega), if_pos (Or.inr hsz)]
        rfl
      simp only [configureExynosBl2, hrf]
      rw [if_neg hpos, hupd, hafter, error_bind]

/-- A binary with a version-2 parameter block, marker at offset 1. -/
def version2Bl2 : List Nat :=
  [9] ++ markerBytes ++ [2, 0, 0, 0] ++ [4, 0, 0, 0] ++
    [0, 0, 0, 0, 0, 0, 0, 0]

theorem configureExynosBl2_locate_checks_witness :
    configureExynosBl2 sampleConfig 0 version2Bl2 =
      .error (.badVersion 2) ∧
    markerBytes.isPrefixOf (version2Bl2.drop 1) = true := by
  have h := configureExynosBl2_locate_checks sampleConfig 0 version2Bl2
  refine ⟨?_, ?_⟩
  · exact (h.2.2.2.2 1 2 4 rfl (by decide) rfl).1 (by decide)
  · exact (h.2.1 1 rfl).1

/-! ### `ConfigureExynosBl2` idempotence -/

/-- The byte offset of the first value slot of a parameter block at `pos`
with a `param_list` terminator at index `plen`:
`pos + 12 + ((param_len + 4) & ~3)` (for non-negative positions). -/
def bl2SlotsPos (p plen : Nat) : Nat :=
  p + 12 + ((plen + 4) - (plen + 4) % 4)

/-- The splice `_UpdateBl2Parameters` performs:
`data[:pos] + new_data + data[pos + len(new_data):]` at slot offset `q`. -/
def bl2Spliced (data : List Nat) (q : Nat) (nd : List Nat) : List Nat :=
  pyTake data (q : Int) ++ nd ++ pyDrop data ((q : Int) + nd.length)

theorem alignDown4_natCast (plen : Nat) :
    alignDown4 ((plen : Int) + 4) =
      (((plen + 4) - (plen + 4) % 4 : Nat) : Int) := by
  unfold alignDown4
  omega

theorem pySlice_eq_of_take_eq (l l2 : List Nat) (m a b : Nat)
    (h : l.take m = l2.take m) (hb : b ≤ m) :
    pySlice l (a : Int) (b : Int) = pySlice l2 (a : Int) (b : Int) := by
  rw [pySlice_natCast, pySlice_natCast]
  have e1 : ∀ t : List Nat, (t.drop a).take (b - a) =
      ((t.take m).drop a).take (b - a) := by
    intro t
    rw [List.drop_take, List.take_take, min_eq_left (by omega)]
  rw [e1 l, e1 l2, h]

theorem readBl2Header_congr (l l2 : List Nat) (p m : Nat)
    (h : l.take m = l2.take m) (hb : p + 12 ≤ m) :
    readBl2Header l (p : Int) = readBl2Header l2 (p : Int) := by
  unfold readBl2Header
  have hc : ((p : Int) + 4) = ((p + 4 : Nat) : Int) := by push_cast; ring
  have hc2 : ((p : Int) + 12) = ((p + 12 : Nat) : Int) := by push_cast; ring
  rw [hc, hc2, pySlice_eq_of_take_eq l l2 m (p + 4) (p + 12) h hb]

theorem readBl2Header_ok_le (data : List Nat) (p : Nat) (v sz : Nat)
    (h : readBl2Header data (p : Int) = .ok (v, sz)) :
    p + 12 ≤ data.length := by
  simp only [readBl2Header] at h
  split_ifs at h with hl
  · have hc : ((p : Int) + 4) = ((p + 4 : Nat) : Int) := by push_cast; ring
    have hc2 : ((p : Int) + 12) = ((p + 12 : Nat) : Int) := by
      push_cast; ring
    rw [hc, hc2, pySlice_natCast] at hl
    rw [List.length_take, List.length_drop] at hl
    omega

theorem unpack32_ok_inv (w : List Nat) (x : Nat)
    (h : unpack32 w = .ok x) : w.length = 4 ∧ x = le32dec w := by
  unfold unpack32 at h
  split_ifs at h with hl
  · cases h
    exact ⟨hl, rfl⟩

theorem pack32_ok_inv (v : Nat) (packed : List Nat)
    (h : pack32 v = .ok packed) :
    packed = le32enc v ∧ v < 4294967296 := by
  unfold pack32 at h
  split_ifs at h with hl
  · cases h
    exact ⟨rfl, hl⟩

set_option maxHeartbeats 1000000 in
theorem resolveParam_stable (cfg : BoardConfig) (spl : Nat)
    (param old v : Nat) (h : resolveParam cfg spl param old = .ok v) :
    resolveParam cfg spl param v = .ok v := by
  unfold resolveParam at h ⊢
  split_ifs at h ⊢
  all_goals first
    | exact h
    | (cases h <;> rfl)

theorem bl2ParamLoop_stable (cfg : BoardConfig) (spl : Nat)
    (data data2 : List Nat) (q : Nat) :
    ∀ (params : List Nat) (upto : Nat) (nd : List Nat),
      bl2ParamLoop cfg spl data (q : Int) params upto = .ok nd →
      (data2.drop (q + upto)).take nd.length = nd →
      q + upto + nd.length ≤ data2.length →
      bl2ParamLoop cfg spl data2 (q : Int) params upto = .ok nd := by
  intro params
  induction params with
  | nil =>
      intro upto nd h _ _
      cases h
      rfl
  | cons p0 rest ih =>
      intro upto nd h hslice hle
      rw [bl2ParamLoop] at h
      cases hunp : unpack32 (pySlice data ((q : Int) + upto)
          ((q : Int) + upto + 4)) with
      | error e => rw [hunp, error_bind] at h; cases h
      | ok old =>
        rw [hunp, ok_bind] at h
        cases hres : resolveParam cfg spl p0 old with
        | error e => rw [hres, error_bind] at h; cases h
        | ok v =>
          rw [hres, ok_bind] at h
          cases hpk : pack32 v with
          | error e => rw [hpk, error_bind] at h; cases h
          | ok packed =>
            rw [hpk, ok_bind] at h
            cases hrest : bl2ParamLoop cfg spl data ((q : Int)) rest
                (upto + 4) with
            | error e => rw [hrest, error_bind] at h; cases h
            | ok tail =>
              rw [hrest, ok_bind] at h
              have hnd : nd = packed ++ tail := by cases h; rfl
              subst hnd
              obtain ⟨hpk1, hv32⟩ := pack32_ok_inv v packed hpk
              have hplen : packed.length = 4 := by
                rw [hpk1]; rfl
              have hndlen : (packed ++ tail).length = 4 + tail.length := by
                simp [hplen]
              have hslot : (data2.drop (q + upto)).take 4 = packed := by
                have h1 : (data2.drop (q + upto)).take 4 =
                    ((data2.drop (q + upto)).take
                      (packed ++ tail).length).take 4 := by
                  rw [List.take_take, min_eq_left (by omega)]
                rw [h1, hslice,
                  List.take_append_of_le_length (by omega),
                  List.take_of_length_le (by omega)]
              have htail : (data2.drop (q + (upto + 4))).take tail.length =
                  tail := by
                have h1 : data2.drop (q + (upto + 4)) =
                    (data2.drop (q + upto)).drop 4 := by
                  rw [List.drop_drop]
                  congr 1
                have h2 : ((data2.drop (q + upto)).drop 4).take
                    tail.length =
                    ((data2.drop (q + upto)).take (4 + tail.length)).drop
                      4 := by
                  rw [List.drop_take]
                  congr 1
                  omega
                rw [h1, h2,
                  show (4 : Nat) + tail.length = (packed ++ tail).length
                    from by simp [hplen],
                  hslice]
                exact List.drop_left' hplen
              rw [bl2ParamLoop]
              have hcast : ((q : Int) + (upto : Int)) =
                  ((q + upto : Nat) : Int) := by push_cast; ring
              rw [hcast, slice4_eq data2 (q + upto), hslot]
              have hunp2 : unpack32 packed = .ok v := by
                rw [hpk1]
                unfold unpack32
                rw [if_pos (length_le32enc v), le32dec_le32enc v hv32]
              rw [hunp2, ok_bind,
                resolveParam_stable cfg spl p0 old v hres, ok_bind,
                hpk, ok_bind,
                ih (upto + 4) tail hrest htail (by omega), ok_bind]

theorem bl2PatchSlots_eq (cfg : BoardConfig) (spl : Nat) (l : List Nat)
    (p plen : Nat) (nd : List Nat)
    (hp12 : p + 12 ≤ l.length)
    (hfind : listFind 0 (l.drop (p + 12)) = (plen : Int))
    (hloop : bl2ParamLoop cfg spl l ((bl2SlotsPos p plen : Nat) : Int)
      ((l.drop (p + 12)).take plen) 0 = .ok nd) :
    bl2PatchSlots cfg spl l (p : Int) =
      .ok (pyTake l ((bl2SlotsPos p plen : Nat) : Int) ++ nd ++
        pyDrop l (((bl2SlotsPos p plen : Nat) : Int) + nd.length)) := by
  simp only [bl2PatchSlots]
  have hcastp : ((p : Int) + 12) = ((p + 12 : Nat) : Int) := by
    push_cast; ring
  rw [hcastp, pyDrop_natCast]
  rw [if_neg (by rw [List.length_drop]; omega)]
  rw [hfind, pyTake_natCast, alignDown4_natCast plen]
  have hcastq : ((p + 12 : Nat) : Int) +
      (((plen + 4) - (plen + 4) % 4 : Nat) : Int) =
      ((bl2SlotsPos p plen : Nat) : Int) := by
    unfold bl2SlotsPos
    omega
  rw [hcastq, hloop, ok_bind]

/-- C5 amended: for a BL2 binary whose version-1 parameter block is
located by `rfind` at a positive offset `p`, whose parameter list is
NUL-terminated, whose value slots end at least 4 bytes before the end of
the binary, and whose patched-and-checksummed output still locates the
marker at `p` (true whenever no written word re-creates the marker bytes
later in the image), `ConfigureExynosBl2` is idempotent: running it again
on its own output returns that output byte-identically. -/
theorem configureExynosBl2_idempotent (cfg : BoardConfig) (spl : Nat)
    (data : List Nat) (p size plen : Nat) (nd : List Nat)
    (h_p : 1 ≤ p)
    (h_rfind : listRfind markerBytes data = (p : Int))
    (h_hdr : readBl2Header data (p : Int) = .ok (1, size))
    (h_size : p + size ≤ data.length)
    (h_find : listFind 0 (data.drop (p + 12)) = (plen : Int))
    (h_loop : bl2ParamLoop cfg spl data ((bl2SlotsPos p plen : Nat) : Int)
      ((data.drop (p + 12)).take plen) 0 = .ok nd)
    (h_fit : bl2SlotsPos p plen + nd.length + 4 ≤ data.length)
    (h_refind : listRfind markerBytes
      (updateChecksum (bl2Spliced data (bl2SlotsPos p plen) nd)) =
      (p : Int)) :
    configureExynosBl2 cfg spl data =
      .ok (updateChecksum (bl2Spliced data (bl2SlotsPos p plen) nd)) ∧
    configureExynosBl2 cfg spl
        (updateChecksum (bl2Spliced data (bl2SlotsPos p plen) nd)) =
      .ok (updateChecksum (bl2Spliced data (bl2SlotsPos p plen) nd)) := by
  set q := bl2SlotsPos p plen with hq
  set D1 := bl2Spliced data q nd with hD1
  set D2 := updateChecksum D1 with hD2
  have hqval : q = p + 12 + ((plen + 4) - (plen + 4) % 4) := hq
  have hp12 : p + 12 ≤ data.length := readBl2Header_ok_le data p 1 size h_hdr
  have hq12 : p + 12 ≤ q := by omega
  have hqfit : q + nd.length + 4 ≤ data.length := h_fit
  have hn4 : 4 ≤ data.length := by omega
  -- structure of the spliced binary
  have hD1struct : D1 = data.take q ++ (nd ++ data.drop (q + nd.length)) := by
    rw [hD1]
    unfold bl2Spliced
    rw [pyTake_natCast]
    have hc : ((q : Int) + (nd.length : Int)) =
        ((q + nd.length : Nat) : Int) := by push_cast; ring
    rw [hc, pyDrop_natCast, List.append_assoc]
  have htakeqlen : (data.take q).length = q := by
    rw [List.length_take]
    omega
  have hD1len : D1.length = data.length := by
    rw [hD1struct]
    simp only [List.length_append, htakeqlen, List.length_drop]
    omega
  have hD1takeq : D1.take q = data.take q := by
    rw [hD1struct]
    exact List.take_left' htakeqlen
  have hD1dropq : D1.drop q = nd ++ data.drop (q + nd.length) := by
    rw [hD1struct]
    exact List.drop_left' htakeqlen
  have htakeD1len : (D1.take (data.length - 4)).length = data.length - 4 := by
    rw [List.length_take, hD1len]
    omega
  have hD2eq : D2 = D1.take (data.length - 4) ++
      le32enc (byteSum (D1.take (data.length - 4)) % 4294967296) := by
    rw [hD2]
    unfold updateChecksum
    rw [hD1len]
  have hD2len : D2.length = data.length := by
    rw [hD2eq, List.length_append, htakeD1len, length_le32enc]
    omega
  -- byte regions of D2
  have htakeq2 : D2.take q = data.take q := by
    rw [hD2eq, List.take_append_of_le_length (by rw [htakeD1len]; omega),
      List.take_take, min_eq_left (by omega), hD1takeq]
  have hsliceD2 : (D2.drop q).take nd.length = nd := by
    rw [hD2eq, List.drop_append_of_le_length (by rw [htakeD1len]; omega),
      List.drop_take,
      List.take_append_of_le_length
        (by rw [List.length_take, List.length_drop, hD1len]; omega),
      List.take_take, min_eq_left (by omega), hD1dropq,
      List.take_left' rfl]
  -- first run
  have hupd1 : updateBl2Parameters cfg spl data (p : Int) = .ok D1 := by
    rw [updateBl2Parameters, h_hdr]
    show bl2AfterHeader cfg spl data (p : Int) 1 size = .ok D1
    rw [bl2AfterHeader, if_neg (by omega), if_neg (by omega),
      bl2PatchSlots_eq cfg spl data p plen nd hp12 h_find h_loop]
    rfl
  have hrun1 : configureExynosBl2 cfg spl data = .ok D2 := by
    simp only [configureExynosBl2, h_rfind]
    rw [if_neg (by omega), hupd1, ok_bind, hD2, hD1]
  refine ⟨hrun1, ?_⟩
  -- second run: the parse of D2 agrees with the parse of data
  have hhdr2 : readBl2Header D2 (p : Int) = .ok (1, size) :=
    (readBl2Header_congr D2 data p q htakeq2 hq12).trans h_hdr
  have hprefagree : (D2.drop (p + 12)).take (q - (p + 12)) =
      (data.drop (p + 12)).take (q - (p + 12)) := by
    have he : ∀ t : List Nat, (t.drop (p + 12)).take (q - (p + 12)) =
        (t.take q).drop (p + 12) := by
      intro t
      rw [List.drop_take]
    rw [he D2, he data, htakeq2]
  have hplenlt : plen < q - (p + 12) := by omega
  have hfind2 : listFind 0 (D2.drop (p + 12)) = (plen : Int) :=
    listFind_stable 0 (data.drop (p + 12)) (D2.drop (p + 12)) plen
      (q - (p + 12)) hprefagree.symm hplenlt h_find
  have hparams2 : (D2.drop (p + 12)).take plen =
      (data.drop (p + 12)).take plen := by
    have he : ∀ t : List Nat, (t.drop (p + 12)).take plen =
        ((t.drop (p + 12)).take (q - (p + 12))).take plen := by
      intro t
      rw [List.take_take, min_eq_left (by omega)]
    rw [he D2, he data, hprefagree]
  have hloop2 : bl2ParamLoop cfg spl D2 ((q : Nat) : Int)
      ((D2.drop (p + 12)).take plen) 0 = .ok nd := by
    rw [hparams2]
    exact bl2ParamLoop_stable cfg spl data D2 q _ 0 nd h_loop hsliceD2
      (by rw [hD2len]; omega)
  -- the splice over D2 rebuilds D2
  have hsplice2 : pyTake D2 ((q : Nat) : Int) ++ nd ++
      pyDrop D2 (((q : Nat) : Int) + nd.length) = D2 := by
    rw [pyTake_natCast]
    have hc : ((q : Int) + (nd.length : Int)) =
        ((q + nd.length : Nat) : Int) := by push_cast; ring
    rw [hc, pyDrop_natCast, List.append_assoc]
    have hdq : D2.drop q = nd ++ D2.drop (q + nd.length) := by
      have h1 : D2.drop q =
          (D2.drop q).take nd.length ++ (D2.drop q).drop nd.length :=
        (List.take_append_drop _ _).symm
      rw [h1, hsliceD2, List.drop_drop]
    rw [← hdq, List.take_append_drop]
  -- re-checksumming D2 is the identity
  have hfix : updateChecksum D2 = D2 := by
    unfold updateChecksum
    rw [hD2len]
    have ht : D2.take (data.length - 4) = D1.take (data.length - 4) := by
      rw [hD2eq, List.take_append_of_le_length (by rw [htakeD1len]),
        List.take_take, min_self]
    rw [ht, ← hD2eq]
  have hupd2 : updateBl2Parameters cfg spl D2 (p : Int) = .ok D2 := by
    rw [updateBl2Parameters, hhdr2]
    show bl2AfterHeader cfg spl D2 (p : Int) 1 size = .ok D2
    rw [bl2AfterHeader, if_neg (by omega), if_neg (by omega),
      bl2PatchSlots_eq cfg spl D2 p plen nd (by omega) hfind2 hloop2,
      hsplice2]
  simp only [configureExynosBl2, h_refind]
  rw [if_neg (by omega), hupd2, ok_bind, hfix]

/-- A configuration whose `/dmc clock-frequency` is 0xdeadbeef MHz: the
patched `f` slot then contains the marker bytes themselves. -/
def freqOverflowConfig : BoardConfig :=
  ⟨"ddr3", "samsung", 3735928559000000, "spi"⟩

/-- A valid version-1 parameter block at offset 1 with the single
parameter `f` (byte 102) and a trailing checksum word. -/
def freqBl2 : List Nat :=
  [0, 0xef, 0xbe, 0xad, 0xde, 1, 0, 0, 0, 16, 0, 0, 0, 102, 0, 0, 0,
    7, 7, 7, 7, 0, 0, 0, 0]

/-- The first run's output on `freqBl2`: the `f` slot now holds
`0xdeadbeef`, a second marker occurrence after the real one. -/
def freqBl2Once : List Nat :=
  [0, 0xef, 0xbe, 0xad, 0xde, 1, 0, 0, 0, 16, 0, 0, 0, 102, 0, 0, 0,
    0xef, 0xbe, 0xad, 0xde, 0xe7, 6, 0, 0]

/-- C5 counterexample: `ConfigureExynosBl2` is not idempotent for every
valid version-1 block and every configuration.  With a clock frequency of
0xdeadbeef MHz the first run writes the marker bytes into the `f` value
slot; the second run's `rfind` then locates the block at that slot
(offset 17), reads the version word past the end of the binary, and dies
with `struct.error` instead of reproducing its input. -/
theorem configureExynosBl2_not_idempotent :
    configureExynosBl2 freqOverflowConfig 0 freqBl2 = .ok freqBl2Once ∧
    configureExynosBl2 freqOverflowConfig 0 freqBl2Once =
      .error .structError :=
  ⟨rfl, rfl⟩

/-- A well-formed version-1 BL2 block at offset 1 with parameters `v`
(byte 118) and `b` (byte 98), slots ending 4 bytes before the end. -/
def wfBl2 : List Nat :=
  [0, 0xef, 0xbe, 0xad, 0xde, 1, 0, 0, 0, 16, 0, 0, 0, 118, 98, 0, 0,
    1, 1, 1, 1, 2, 2, 2, 2, 0, 0, 0, 0]

/-- The slot bytes the parameter loop produces for `wfBl2`:
interleave 31 and boot source straps 32. -/
def wfBl2Nd : List Nat := [31, 0, 0, 0, 32, 0, 0, 0]

theorem configureExynosBl2_idempotent_witness :
    configureExynosBl2 sampleConfig 0 wfBl2 =
      .ok (updateChecksum (bl2Spliced wfBl2 (bl2SlotsPos 1 2) wfBl2Nd)) ∧
    configureExynosBl2 sampleConfig 0
        (updateChecksum (bl2Spliced wfBl2 (bl2SlotsPos 1 2) wfBl2Nd)) =
      .ok (updateChecksum (bl2Spliced wfBl2 (bl2SlotsPos 1 2) wfBl2Nd)) :=
  configureExynosBl2_idempotent sampleConfig 0 wfBl2 1 16 2 wfBl2Nd
    (by decide) (by decide) rfl (by decide) (by decide) rfl (by decide)
    (by decide)
